import Mathlib

/-!
Verification of the posix storage backend of the versitygw S3 gateway
(`backend/posix/posix.go`), against the repository's specification.

The filesystem together with the attribute (metadata) store is modelled as
an explicit state (`Sys`); every backend operation is a Lean function
translated statement-by-statement from the Go source.  Machine integers are
modelled as `Nat`/`Int` with explicit `% 2^w` where overflow matters
(the MD5 core works on 32-bit words as `Nat % 2^32`).  Go byte strings are
modelled as `List Nat` (one `Nat < 256` per byte); Go `string` values are
Lean `String`s (Go's lexicographic byte order on UTF-8 strings coincides
with codepoint lexicographic order, which is `String.lt`).

Helpers of the repository that are not under the provided sources
(the `backend` utility package and the `meta` store) are modelled from the
spec; each such definition carries a doc comment starting
`Modelled from the spec:`.
-/

deriving instance DecidableEq for Except

set_option maxRecDepth 100000

namespace VGw

/-! ## Association lists (finite maps used for the filesystem and attributes) -/

def assocGet {α β : Type} [DecidableEq α] : List (α × β) → α → Option β
  | [], _ => none
  | (a, b) :: t, k => if a = k then some b else assocGet t k

def assocSet {α β : Type} [DecidableEq α] : List (α × β) → α → β → List (α × β)
  | [], k, v => [(k, v)]
  | (a, b) :: t, k, v => if a = k then (k, v) :: t else (a, b) :: assocSet t k v

theorem assocGet_set_self {α β : Type} [DecidableEq α] (l : List (α × β)) (k : α) (v : β) :
    assocGet (assocSet l k v) k = some v := by
  induction l with
  | nil => simp [assocGet, assocSet]
  | cons h t ih =>
    obtain ⟨a, b⟩ := h
    by_cases hak : a = k <;> simp [assocGet, assocSet, hak, ih]

theorem assocGet_set_ne {α β : Type} [DecidableEq α] (l : List (α × β)) (k k' : α) (v : β)
    (h : k' ≠ k) : assocGet (assocSet l k v) k' = assocGet l k' := by
  have hkk' : ¬ k = k' := fun hh => h hh.symm
  induction l with
  | nil => simp only [assocSet, assocGet, if_neg hkk']
  | cons hd t ih =>
    obtain ⟨a, b⟩ := hd
    by_cases hak : a = k
    · subst hak
      simp only [assocSet, if_pos rfl, assocGet, if_neg hkk']
    · simp only [assocSet, if_neg hak, assocGet, ih]

/-! ## Bytes, byte strings and hex encoding -/

/-- Go byte strings: one `Nat` (< 256 for well-formed data) per byte. -/
abbrev Bytes := List Nat

/-- Byte model of a Go `string`: one entry per character codepoint.
Exact for the ASCII data (etags, part numbers, keys) the backend handles. -/
def strBytes (s : String) : Bytes := s.data.map Char.toNat

/-- Model of Go's `string(b)` conversion back from attribute bytes. -/
def bytesToStr (b : Bytes) : String := ⟨b.map Char.ofNat⟩

theorem bytesToStr_strBytes (s : String) : bytesToStr (strBytes s) = s := by
  have : (s.data.map Char.toNat).map Char.ofNat = s.data := by
    rw [List.map_map]
    have : (Char.ofNat ∘ Char.toNat) = id := by
      funext c
      simp [Function.comp, Char.ofNat_toNat]
    rw [this, List.map_id]
  simp [bytesToStr, strBytes, this]

theorem strBytes_inj {s t : String} (h : strBytes s = strBytes t) : s = t := by
  have := congrArg bytesToStr h
  rwa [bytesToStr_strBytes, bytesToStr_strBytes] at this

/-- Lower-case hex digit for a value < 16. -/
def hexDigit (n : Nat) : Char :=
  if n < 10 then Char.ofNat (48 + n) else Char.ofNat (87 + n)

def byteToHexChars (n : Nat) : List Char := [hexDigit (n / 16), hexDigit (n % 16)]

/-- Lower-case hex encoding of a byte string (Go `hex.EncodeToString`). -/
def bytesToHex (b : Bytes) : String := ⟨b.flatMap byteToHexChars⟩

/-- Value of a hex digit character (junk on non-hex-digit input). -/
def hexVal (c : Char) : Nat :=
  if 97 ≤ c.toNat then c.toNat - 87 else c.toNat - 48

def hexDecodeChars : List Char → Bytes
  | c1 :: c2 :: rest => (16 * hexVal c1 + hexVal c2) :: hexDecodeChars rest
  | _ => []

/-- Hex decoding of a string back into bytes (Go `hex.DecodeString`,
total: junk on malformed input). -/
def hexDecode (s : String) : Bytes := hexDecodeChars s.data

theorem hexVal_hexDigit {n : Nat} (h : n < 16) : hexVal (hexDigit n) = n := by
  interval_cases n <;> decide

theorem hexDecode_bytesToHex {b : Bytes} (h : ∀ x ∈ b, x < 256) :
    hexDecode (bytesToHex b) = b := by
  induction b with
  | nil => decide
  | cons x t ih =>
    have hx : x < 256 := h x (by simp)
    have ht : ∀ y ∈ t, y < 256 := fun y hy => h y (by simp [hy])
    have h1 : x / 16 < 16 := by omega
    have h2 : x % 16 < 16 := by omega
    simp only [hexDecode, bytesToHex, List.flatMap_cons, byteToHexChars] at *
    simp only [List.cons_append, List.nil_append, hexDecodeChars,
      hexVal_hexDigit h1, hexVal_hexDigit h2, List.cons.injEq]
    exact ⟨by omega, ih ht⟩

/-! ## MD5 (crypto/md5), on 32-bit words as `Nat % 2^32` -/

def w32 (n : Nat) : Nat := n % 4294967296

def wadd (a b : Nat) : Nat := (a + b) % 4294967296

/-- 32-bit complement (inputs are kept < 2^32). -/
def wnot (a : Nat) : Nat := 4294967295 ^^^ a

/-- 32-bit rotate left (for x < 2^32, 0 < r < 32). -/
def rotl (x r : Nat) : Nat := ((x <<< r) % 4294967296) ||| (x >>> (32 - r))

/-- The 64 MD5 sine-table constants (RFC 1321). -/
def md5K : List Nat :=
  [0xd76aa478, 0xe8c7b756, 0x242070db, 0xc1bdceee,
   0xf57c0faf, 0x4787c62a, 0xa8304613, 0xfd469501,
   0x698098d8, 0x8b44f7af, 0xffff5bb1, 0x895cd7be,
   0x6b901122, 0xfd987193, 0xa679438e, 0x49b40821,
   0xf61e2562, 0xc040b340, 0x265e5a51, 0xe9b6c7aa,
   0xd62f105d, 0x02441453, 0xd8a1e681, 0xe7d3fbc8,
   0x21e1cde6, 0xc33707d6, 0xf4d50d87, 0x455a14ed,
   0xa9e3e905, 0xfcefa3f8, 0x676f02d9, 0x8d2a4c8a,
   0xfffa3942, 0x8771f681, 0x6d9d6122, 0xfde5380c,
   0xa4beea44, 0x4bdecfa9, 0xf6bb4b60, 0xbebfbc70,
   0x289b7ec6, 0xeaa127fa, 0xd4ef3085, 0x04881d05,
   0xd9d4d039, 0xe6db99e5, 0x1fa27cf8, 0xc4ac5665,
   0xf4292244, 0x432aff97, 0xab9423a7, 0xfc93a039,
   0x655b59c3, 0x8f0ccc92, 0xffeff47d, 0x85845dd1,
   0x6fa87e4f, 0xfe2ce6e0, 0xa3014314, 0x4e0811a1,
   0xf7537e82, 0xbd3af235, 0x2ad7d2bb, 0xeb86d391]

/-- The 64 per-round left-rotation amounts. -/
def md5S : List Nat :=
  [7, 12, 17, 22, 7, 12, 17, 22, 7, 12, 17, 22, 7, 12, 17, 22,
   5, 9, 14, 20, 5, 9, 14, 20, 5, 9, 14, 20, 5, 9, 14, 20,
   4, 11, 16, 23, 4, 11, 16, 23, 4, 11, 16, 23, 4, 11, 16, 23,
   6, 10, 15, 21, 6, 10, 15, 21, 6, 10, 15, 21, 6, 10, 15, 21]

/-- Round function and message index for step `i`. -/
def md5FG (i b c d : Nat) : Nat × Nat :=
  if i < 16 then ((b &&& c) ||| (wnot b &&& d), i)
  else if i < 32 then ((d &&& b) ||| (wnot d &&& c), (5 * i + 1) % 16)
  else if i < 48 then (b ^^^ c ^^^ d, (3 * i + 5) % 16)
  else (c ^^^ (b ||| wnot d), (7 * i) % 16)

/-- One of the 64 MD5 steps on state (A,B,C,D) with message words `m`. -/
def md5Step (m : List Nat) (st : Nat × Nat × Nat × Nat) (i : Nat) :
    Nat × Nat × Nat × Nat :=
  let (a, b, c, d) := st
  let (f, g) := md5FG i b c d
  let x := wadd (wadd (wadd a f) (md5K.getD i 0)) (m.getD g 0)
  (d, wadd b (rotl x (md5S.getD i 0)), b, c)

/-- Little-endian 32-bit words of one 64-byte block. -/
def blockWords (blk : Bytes) : List Nat :=
  (List.range 16).map fun j =>
    blk.getD (4 * j) 0 + 256 * blk.getD (4 * j + 1) 0 +
      65536 * blk.getD (4 * j + 2) 0 + 16777216 * blk.getD (4 * j + 3) 0

/-- Process one 64-byte block into the running digest state. -/
def md5Block (st : Nat × Nat × Nat × Nat) (blk : Bytes) : Nat × Nat × Nat × Nat :=
  let m := blockWords blk
  let (a, b, c, d) := (List.range 64).foldl (md5Step m) st
  let (a0, b0, c0, d0) := st
  (wadd a0 a, wadd b0 b, wadd c0 c, wadd d0 d)

/-- MD5 padding: 0x80, zeros to 56 mod 64, 8-byte little-endian bit length. -/
def md5Pad (msg : Bytes) : Bytes :=
  let l := msg.length
  let zeros := (119 - l % 64) % 64
  let bits := (l * 8) % 18446744073709551616
  msg ++ [128] ++ List.replicate zeros 0 ++
    (List.range 8).map fun k => (bits >>> (8 * k)) % 256

def chunks64Aux : Nat → Bytes → List Bytes
  | 0, _ => []
  | _ + 1, [] => []
  | fuel + 1, l => l.take 64 :: chunks64Aux fuel (l.drop 64)

/-- Split a byte string into 64-byte blocks (fuel recursion so that the
kernel can evaluate it; the fuel `l.length + 1` always suffices). -/
def chunks64 (l : Bytes) : List Bytes := chunks64Aux (l.length + 1) l

/-- Little-endian bytes of a 32-bit word. -/
def wordLEBytes (w : Nat) : Bytes :=
  [w % 256, w / 256 % 256, w / 65536 % 256, w / 16777216 % 256]

/-- The 16-byte MD5 digest of a byte string. -/
def md5Bytes (msg : Bytes) : Bytes :=
  let (a, b, c, d) :=
    (chunks64 (md5Pad msg)).foldl md5Block
      (0x67452301, 0xefcdab89, 0x98badcfe, 0x10325476)
  wordLEBytes a ++ wordLEBytes b ++ wordLEBytes c ++ wordLEBytes d

/-- The lower-case hex MD5 digest, as the backend stores and returns it. -/
def md5Hex (msg : Bytes) : String := bytesToHex (md5Bytes msg)

theorem wordLEBytes_lt (w : Nat) : ∀ x ∈ wordLEBytes w, x < 256 := by
  intro x hx
  simp only [wordLEBytes, List.mem_cons, List.not_mem_nil, or_false] at hx
  rcases hx with h | h | h | h <;> subst h <;> omega

theorem md5Bytes_lt (msg : Bytes) : ∀ x ∈ md5Bytes msg, x < 256 := by
  intro x hx
  simp only [md5Bytes, List.mem_append] at hx
  rcases hx with ((h | h) | h) | h <;> exact wordLEBytes_lt _ x h

theorem hexDecode_md5Hex (msg : Bytes) : hexDecode (md5Hex msg) = md5Bytes msg :=
  hexDecode_bytesToHex (md5Bytes_lt msg)

/-! ## The filesystem and metadata state

A path is the list of its components relative to the gateway root
(`New` chdirs to the root, so Go paths are relative to it too); the first
component of a bucket-relative path is the bucket name.  `Sys.fs` maps a
path to its node, `Sys.attrs` maps a (path, attribute-name) pair to the
attribute bytes.  Modification times and ownership are not modelled.  The
structured `AttrVal` constructors stand for the JSON byte encodings the
backend writes through `encoding/json`; `.raw` is a plain byte string. -/

abbrev Path := List String

inductive Node
  | file (data : Bytes)
  | dir
deriving DecidableEq, Repr

inductive AttrVal
  | raw (b : Bytes)
  | lock (enabled : Bool)
  | tags (ts : List (String × String))
deriving DecidableEq, Repr

structure Sys where
  fs : List (Path × Node)
  attrs : List ((Path × String) × AttrVal)
deriving DecidableEq, Repr

def getNode (s : Sys) (p : Path) : Option Node := assocGet s.fs p

def setNode (s : Sys) (p : Path) (n : Node) : Sys :=
  { s with fs := assocSet s.fs p n }

def hasChild (s : Sys) (p : Path) : Bool :=
  s.fs.any fun e => p.isPrefixOf e.1 && decide (e.1 ≠ p)

/-- Removing an inode drops its extended attributes with it. -/
def removeNode (s : Sys) (p : Path) : Sys :=
  { fs := s.fs.filter fun e => decide (e.1 ≠ p),
    attrs := s.attrs.filter fun e => decide (e.1.1 ≠ p) }

/-- `os.RemoveAll`: remove the path and everything below it (no error if
absent). -/
def dropTree (s : Sys) (p : Path) : Sys :=
  { fs := s.fs.filter fun e => !(p.isPrefixOf e.1),
    attrs := s.attrs.filter fun e => !(p.isPrefixOf e.1.1) }

inductive FsErr
  | notExist
  | notEmpty
  | notDir
deriving DecidableEq, Repr

/-- `os.Remove`: unlink a file or remove an empty directory. -/
def osRemove (s : Sys) (p : Path) : Except FsErr Sys :=
  match getNode s p with
  | none => .error .notExist
  | some (.file _) => .ok (removeNode s p)
  | some .dir => if hasChild s p then .error .notEmpty else .ok (removeNode s p)

def mkdirAllAux (s : Sys) (base : Path) : List String → Except FsErr Sys
  | [] => .ok s
  | c :: rest =>
    let q := base ++ [c]
    match getNode s q with
    | some .dir => mkdirAllAux s q rest
    | some (.file _) => .error .notDir
    | none => mkdirAllAux (setNode s q .dir) q rest

/-- Modelled from the spec: `backend.MkdirAll` (not under the provided
sources) behaves as `os.MkdirAll` plus the chown policy of §4.10 (ownership
is not modelled): create the directory and any missing parents, failing if
a component exists as a regular file. -/
def mkdirAll (s : Sys) (p : Path) : Except FsErr Sys := mkdirAllAux s [] p

/-! ## The metadata store (spec §4.1/§6, xattr variant) -/

inductive MetaErr
  | notExist
  | noSuchKey
deriving DecidableEq, Repr

/-- Modelled from the spec: `meta.MetadataStorer.RetrieveAttribute` —
attributes attach to an existing path; a missing path gives
`fs.ErrNotExist`, a missing attribute gives `meta.ErrNoSuchKey`.
The Go call takes `(bucket, object)`; here `p` is the joined path. -/
def RetrieveAttribute (s : Sys) (p : Path) (k : String) : Except MetaErr AttrVal :=
  match getNode s p with
  | none => .error .notExist
  | some _ =>
    match assocGet s.attrs (p, k) with
    | none => .error .noSuchKey
    | some v => .ok v

/-- Modelled from the spec: `meta.MetadataStorer.StoreAttribute` — storing
on a missing path gives `fs.ErrNotExist`. -/
def StoreAttribute (s : Sys) (p : Path) (k : String) (v : AttrVal) : Except MetaErr Sys :=
  match getNode s p with
  | none => .error .notExist
  | some _ => .ok { s with attrs := assocSet s.attrs (p, k) v }

/-- Modelled from the spec: `meta.MetadataStorer.DeleteAttribute`. -/
def DeleteAttribute (s : Sys) (p : Path) (k : String) : Except MetaErr Sys :=
  match getNode s p with
  | none => .error .notExist
  | some _ =>
    match assocGet s.attrs (p, k) with
    | none => .error .noSuchKey
    | some _ => .ok { s with attrs := s.attrs.filter fun e => decide (e.1 ≠ (p, k)) }

/-- Modelled from the spec: `meta.MetadataStorer.ListAttributes`. -/
def ListAttributes (s : Sys) (p : Path) : List String :=
  s.attrs.filterMap fun e => if e.1.1 = p then some e.1.2 else none

/-- Modelled from the spec: `meta.MetadataStorer.DeleteAttributes`. -/
def DeleteAttributes (s : Sys) (p : Path) : Sys :=
  { s with attrs := s.attrs.filter fun e => decide (e.1.1 ≠ p) }

/-! ## Constants and name mapping (posix.go) -/

def metaTmpDir : String := ".sgwtmp"
def onameAttr : String := "objname"
def tagHdr : String := "X-Amz-Tagging"
def metaHdr : String := "X-Amz-Meta"
def contentTypeHdr : String := "content-type"
def contentEncHdr : String := "content-encoding"
def emptyMD5 : String := "d41d8cd98f00b204e9800998ecf8427e"
def etagkey : String := "etag"
def bucketLockKey : String := "bucket-lock"
def objectRetentionKey : String := "object-retention"
def objectLegalHoldKey : String := "object-legal-hold"

/-- Char-level split on a single-character separator (the kernel-evaluable
equivalent of `strings.Split` / `String.splitOn` for the one-character
separators the backend uses). -/
def splitCharAux (sep : Char) : List Char → List Char → List String
  | [], acc => [⟨acc.reverse⟩]
  | c :: rest, acc =>
    if c = sep then ⟨acc.reverse⟩ :: splitCharAux sep rest []
    else splitCharAux sep rest (c :: acc)

def splitOnChar (sep : Char) (s : String) : List String := splitCharAux sep s.data []

/-- `strings.HasSuffix(key, "/")`. -/
def endsWithSlash (key : String) : Bool := key.data.getLast? = some '/'

/-- `strings.HasPrefix`. -/
def strStartsWith (s pre : String) : Bool := pre.data.isPrefixOf s.data

/-- `strings.EqualFold` via ASCII lower-casing. -/
def lowerStr (s : String) : String := ⟨s.data.map Char.toLower⟩

/-- Components of `filepath.Join(bucket, key)` below the bucket: the key is
split on "/" and cleaned (empty components from duplicate or trailing
slashes vanish). -/
def keyPath (key : String) : List String := (splitOnChar '/' key).filter (· ≠ "")

def objPath (bucket key : String) : Path := bucket :: keyPath key

/-- Modelled from the spec: `hex(sha256(key))`, the multipart container
directory name (§4.2).  The external crypto hash is modelled by an
injective hex encoding of the key bytes; the backend relies only on the
name being a deterministic function of the key. -/
def hashKeyDir (key : String) : String := bytesToHex (strBytes key)

/-- The multipart container path for a key, relative to the bucket
(Go `objdir := filepath.Join(metaTmpMultipartDir, fmt.Sprintf("%x", sum))`). -/
def objdirRel (key : String) : List String := [metaTmpDir, "multipart", hashKeyDir key]

/-! ## S3 errors (s3err package, spec §6 error wire mapping) -/

inductive S3Err
  | NoSuchBucket
  | NoSuchKey
  | InvalidBucketName
  | InvalidPart
  | InvalidRange
  | DirectoryObjectContainsData
  | ExistingObjectIsDirectory
  | QuotaExceeded
  | NoSuchUpload
  | InvalidTag
  | InvalidRequest
  | InvalidBucketObjectLockConfiguration
  | ObjectLockConfigurationNotAllowed
  | NoSuchObjectLockConfiguration
  | BucketTaggingNotFound
  | InvalidCopySource
  | InvalidCopyDest
  | InvalidPartNumberMarker
  | NoSuchBucketPolicy
  | ObjectLockConfigurationNotFound
  | BucketNotEmpty
  | BucketAlreadyExists
deriving DecidableEq, Repr

/-- An operation error: an `s3err.APIError` or a wrapped internal error. -/
inductive Err
  | api (e : S3Err)
  | other (msg : String)
deriving DecidableEq, Repr

/-- Modelled from the spec: the error code strings of the S3 wire mapping
(§6). -/
def s3Code : S3Err → String
  | .NoSuchBucket => "NoSuchBucket"
  | .NoSuchKey => "NoSuchKey"
  | .InvalidBucketName => "InvalidBucketName"
  | .InvalidPart => "InvalidPart"
  | .InvalidRange => "InvalidRange"
  | .DirectoryObjectContainsData => "DirectoryObjectContainsData"
  | .ExistingObjectIsDirectory => "ExistingObjectIsDirectory"
  | .QuotaExceeded => "QuotaExceeded"
  | .NoSuchUpload => "NoSuchUpload"
  | .InvalidTag => "InvalidTag"
  | .InvalidRequest => "InvalidRequest"
  | .InvalidBucketObjectLockConfiguration => "InvalidBucketObjectLockConfiguration"
  | .ObjectLockConfigurationNotAllowed => "ObjectLockConfigurationNotAllowed"
  | .NoSuchObjectLockConfiguration => "NoSuchObjectLockConfiguration"
  | .BucketTaggingNotFound => "BucketTaggingNotFound"
  | .InvalidCopySource => "InvalidCopySource"
  | .InvalidCopyDest => "InvalidCopyDest"
  | .InvalidPartNumberMarker => "InvalidPartNumberMarker"
  | .NoSuchBucketPolicy => "NoSuchBucketPolicy"
  | .ObjectLockConfigurationNotFound => "ObjectLockConfigurationNotFound"
  | .BucketNotEmpty => "BucketNotEmpty"
  | .BucketAlreadyExists => "BucketAlreadyExists"

/-- The per-key error code of the `DeleteObjects` response
(`serr.Code` for an APIError, "InternalError" otherwise). -/
def errCode : Err → String
  | .api e => s3Code e
  | .other _ => "InternalError"

/-- The per-key error message (`serr.Description` / `err.Error()`); for an
APIError the code string stands for its human description. -/
def errMsg : Err → String
  | .api e => s3Code e
  | .other m => m

/-! ## Small helpers shared by the operations -/

/-- `isValidMeta` (posix.go). -/
def isValidMeta (v : String) : Bool :=
  strStartsWith v metaHdr || lowerStr v = "expires"

/-- `strings.TrimPrefix(e, "X-Amz-Meta.")`. -/
def trimMetaPrefix (v : String) : String :=
  if strStartsWith v (metaHdr ++ ".") then ⟨v.data.drop (metaHdr.length + 1)⟩ else v

/-- Go's `string(b)` on an attribute value.  The structured constructors
stand for JSON byte encodings; reading one back as a plain string only
happens on states the backend never produces for string-valued attributes. -/
def attrStr : AttrVal → String
  | .raw b => bytesToStr b
  | _ => ""

/-- JSON decoding of `auth.BucketLockConfig` (external `encoding/json`),
modelled structurally: `.lock` is the document the backend writes, raw
bytes do not decode. -/
def decodeLock : AttrVal → Option Bool
  | .lock e => some e
  | _ => none

/-- `loadUserMetaData` (posix.go): collect the valid user-metadata
attributes of a path with the `X-Amz-Meta.` prefix stripped, then
content-type and content-encoding when present.  Go's map iteration order
is modelled as insertion order. -/
def loadUserMetaData (s : Sys) (p : Path) : List (String × String) :=
  let base := (ListAttributes s p).filterMap fun e =>
    if isValidMeta e then
      match RetrieveAttribute s p e with
      | .ok v => some (trimMetaPrefix e, attrStr v)
      | .error _ => none
    else none
  let ct := match RetrieveAttribute s p contentTypeHdr with
    | .ok v => attrStr v
    | .error _ => ""
  let ce := match RetrieveAttribute s p contentEncHdr with
    | .ok v => attrStr v
    | .error _ => ""
  (base ++ (if ct ≠ "" then [(contentTypeHdr, ct)] else [])) ++
    (if ce ≠ "" then [(contentEncHdr, ce)] else [])

/-! ## Object lock operations (posix.go) -/

/-- `PutObjectLegalHold` (posix.go). -/
def PutObjectLegalHold (s : Sys) (bucket object : String) (status : Bool) :
    Sys × Except Err Unit :=
  match getNode s [bucket] with
  | none => (s, .error (.api .NoSuchBucket))
  | some _ =>
    match RetrieveAttribute s [bucket] bucketLockKey with
    | .error .noSuchKey => (s, .error (.api .InvalidBucketObjectLockConfiguration))
    | .error .notExist => (s, .error (.other "get object lock config"))
    | .ok cfg =>
      match decodeLock cfg with
      | none => (s, .error (.other "parse bucket lock config"))
      | some enabled =>
        if !enabled then (s, .error (.api .InvalidBucketObjectLockConfiguration))
        else
          let statusData : Bytes := if status then [1] else [0]
          match StoreAttribute s (objPath bucket object) objectLegalHoldKey (.raw statusData) with
          | .error .notExist => (s, .error (.api .NoSuchKey))
          | .error .noSuchKey => (s, .error (.other "set object lock config"))
          | .ok s' => (s', .ok ())

/-- `PutObjectRetention` (posix.go); `retention` is the marshalled
retention document, stored opaquely. -/
def PutObjectRetention (s : Sys) (bucket object : String) (retention : Bytes) :
    Sys × Except Err Unit :=
  match getNode s [bucket] with
  | none => (s, .error (.api .NoSuchBucket))
  | some _ =>
    match RetrieveAttribute s [bucket] bucketLockKey with
    | .error .noSuchKey => (s, .error (.api .InvalidBucketObjectLockConfiguration))
    | .error .notExist => (s, .error (.other "get object lock config"))
    | .ok cfg =>
      match decodeLock cfg with
      | none => (s, .error (.other "parse bucket lock config"))
      | some enabled =>
        if !enabled then (s, .error (.api .InvalidBucketObjectLockConfiguration))
        else
          match StoreAttribute s (objPath bucket object) objectRetentionKey (.raw retention) with
          | .error .notExist => (s, .error (.api .NoSuchKey))
          | .error .noSuchKey => (s, .error (.other "set object lock config"))
          | .ok s' => (s', .ok ())

/-! ## Tagging (posix.go) -/

/-- `PutObjectTagging` (posix.go): nil tags delete the attribute, non-nil
tags replace it (the tag map is modelled as the parsed pair list). -/
def PutObjectTagging (s : Sys) (bucket object : String)
    (tags : Option (List (String × String))) : Sys × Except Err Unit :=
  match getNode s [bucket] with
  | none => (s, .error (.api .NoSuchBucket))
  | some _ =>
    match tags with
    | none =>
      match DeleteAttribute s (objPath bucket object) tagHdr with
      | .error .notExist => (s, .error (.api .NoSuchKey))
      | .error .noSuchKey => (s, .ok ())
      | .ok s' => (s', .ok ())
    | some ts =>
      match StoreAttribute s (objPath bucket object) tagHdr (.tags ts) with
      | .error .notExist => (s, .error (.api .NoSuchKey))
      | .error .noSuchKey => (s, .error (.other "set tags"))
      | .ok s' => (s', .ok ())

/-- `getAttrTags` (posix.go). -/
def getAttrTags (s : Sys) (p : Path) : Except Err (List (String × String)) :=
  match RetrieveAttribute s p tagHdr with
  | .error .notExist => .error (.api .NoSuchKey)
  | .error .noSuchKey => .error (.api .BucketTaggingNotFound)
  | .ok v =>
    match v with
    | .tags ts => .ok ts
    | _ => .error (.other "unmarshal tags")

/-! ## PutObject (posix.go) -/

/-- One `X-Amz-Tagging` piece `k=v` with the 128/256 length caps. -/
def parseTagPart (prt : String) : Option (String × String) :=
  match splitOnChar '=' prt with
  | [k, v] => if k.length > 128 || v.length > 256 then none else some (k, v)
  | _ => none

/-- The `X-Amz-Tagging` form-encoded tag string `k=v&k=v`.  Go collects the
pairs into a map; the parsed list models it in insertion order. -/
def parseTags (tagsStr : String) : Option (List (String × String)) :=
  (splitOnChar '&' tagsStr).mapM parseTagPart

structure PutObjectInput where
  bucket : String
  key : String
  contentLength : Int
  body : Bytes
  tagging : Option String
  metadata : List (String × String)
  legalHold : Bool
  retention : Option Bytes
deriving DecidableEq, Repr

/-- The user-metadata store loop of `PutObject`: each pair is stored under
`X-Amz-Meta.<name>`; a store failure aborts with the partial stores kept. -/
def storeUserMeta (s : Sys) (p : Path) : List (String × String) → Sys × Except Err Unit
  | [] => (s, .ok ())
  | (k, v) :: rest =>
    match StoreAttribute s p (metaHdr ++ "." ++ k) (.raw (strBytes v)) with
    | .error _ => (s, .error (.other "set user attr"))
    | .ok s' => storeUserMeta s' p rest

/-- The object legal hold / retention steps at the end of `PutObject`. -/
def putObjectLockSteps (s : Sys) (po : PutObjectInput) : Sys × Except Err Unit :=
  let retStep (s' : Sys) : Sys × Except Err Unit :=
    match po.retention with
    | none => (s', .ok ())
    | some ret => PutObjectRetention s' po.bucket po.key ret
  if po.legalHold then
    match PutObjectLegalHold s po.bucket po.key true with
    | (s', .error e) => (s', .error e)
    | (s', .ok ()) => retStep s'
  else retStep s

/-- The final steps of `PutObject` after user metadata and tagging: the
object lock state and the etag attribute. -/
def putObjectFinish (s5 : Sys) (po : PutObjectInput) (etag : String) :
    Sys × Except Err String :=
  match putObjectLockSteps s5 po with
  | (s6, .error e) => (s6, .error e)
  | (s6, .ok ()) =>
    match StoreAttribute s6 (objPath po.bucket po.key) etagkey
        (.raw (strBytes etag)) with
    | .error _ => (s6, .error (.other "set etag attr"))
    | .ok s7 => (s7, .ok etag)

/-- The tail of `PutObject` after the object file is linked into place:
user metadata, tagging, object lock state, and finally the etag. -/
def putObjectTail (s : Sys) (po : PutObjectInput)
    (tagsOpt : Option (List (String × String))) (etag : String) :
    Sys × Except Err String :=
  match storeUserMeta s (objPath po.bucket po.key) po.metadata with
  | (s4, .error e) => (s4, .error e)
  | (s4, .ok ()) =>
    match tagsOpt with
    | some ts =>
      match PutObjectTagging s4 po.bucket po.key (some ts) with
      | (s5, .error e) => (s5, .error e)
      | (s5, .ok ()) => putObjectFinish s5 po etag
    | none => putObjectFinish s4 po etag

/-- `PutObject` (posix.go).  The temp-file publisher (§4.6, not under the
provided sources) is modelled from the spec: the staging `.sgwtmp`
directory is ensured, the temp file is invisible until `link`, `link`
publishes the full body at the target in one step (last writer wins) and
fails if the target is a directory.  Quota errors are not modelled. -/
def PutObject (s : Sys) (po : PutObjectInput) : Sys × Except Err String :=
  match getNode s [po.bucket] with
  | none => (s, .error (.api .NoSuchBucket))
  | some _ =>
  let tagsStr := po.tagging.getD ""
  let tagsParsed : Except Err (Option (List (String × String))) :=
    if tagsStr = "" then .ok none
    else
      match parseTags tagsStr with
      | none => .error (.api .InvalidTag)
      | some ts => .ok (some ts)
  match tagsParsed with
  | .error e => (s, .error e)
  | .ok tagsOpt =>
  let name := objPath po.bucket po.key
  if endsWithSlash po.key then
    -- object is directory
    if po.contentLength ≠ 0 then (s, .error (.api .DirectoryObjectContainsData))
    else
      match mkdirAll s name with
      | .error _ => (s, .error (.other "mkdir"))
      | .ok s1 =>
        match storeUserMeta s1 name po.metadata with
        | (s2, .error e) => (s2, .error e)
        | (s2, .ok ()) =>
          -- set etag attribute to signify this dir was specifically put
          match StoreAttribute s2 name etagkey (.raw (strBytes emptyMD5)) with
          | .error _ => (s2, .error (.other "set etag attr"))
          | .ok s3 => (s3, .ok emptyMD5)
  else
    -- object is file
    match getNode s name with
    | some .dir => (s, .error (.api .ExistingObjectIsDirectory))
    | _ =>
      match mkdirAll s [po.bucket, metaTmpDir] with
      | .error _ => (s, .error (.other "open temp file"))
      | .ok s1 =>
        -- the body is streamed through the MD5 accumulator into the temp file
        let etag := md5Hex po.body
        match mkdirAll s1 name.dropLast with
        | .error _ => (s1, .error (.api .ExistingObjectIsDirectory))
        | .ok s2 =>
          match getNode s2 name with
          | some .dir => (s2, .error (.api .ExistingObjectIsDirectory))
          | _ =>
            putObjectTail (setNode s2 name (.file po.body)) po tagsOpt etag

/-! ## GetObject (posix.go) -/

/-- Decimal parse of a Go `strconv.ParseInt` argument restricted to the
digit strings HTTP ranges carry. -/
def parseDecNat (t : String) : Option Nat :=
  if t ≠ "" ∧ t.data.all Char.isDigit then
    some (t.data.foldl (fun acc c => 10 * acc + (c.toNat - 48)) 0)
  else none

/-- Modelled from the spec: `backend.ParseRange` (§4.5, not under the
provided sources) — a standard HTTP byte-range parse returning
(start, length) with length -1 meaning "to end"; parse errors give
`InvalidRange`; an absent range reads as the whole object (§9).  The
EOF checks are the caller's (they are in posix.go). -/
def ParseRange (rangeStr : String) : Except Err (Int × Int) :=
  if rangeStr = "" then .ok (0, -1)
  else
    match splitOnChar '=' rangeStr with
    | [unit, spec] =>
      if unit ≠ "bytes" then .error (.api .InvalidRange)
      else
        match splitOnChar '-' spec with
        | [a, b] =>
          match parseDecNat a with
          | none => .error (.api .InvalidRange)
          | some av =>
            if b = "" then .ok ((av : Int), -1)
            else
              match parseDecNat b with
              | none => .error (.api .InvalidRange)
              | some bv =>
                if bv < av then .error (.api .InvalidRange)
                else .ok ((av : Int), (bv : Int) - (av : Int) + 1)
        | _ => .error (.api .InvalidRange)
    | _ => .error (.api .InvalidRange)

structure GetObjectOutput where
  etag : String
  contentLength : Int
  metadata : List (String × String)
  tagCount : Option Nat
deriving DecidableEq, Repr

/-- `GetObject` (posix.go): returns the output and the bytes written to the
writer.  (In the source a failure after the copy has already written to the
writer; the written bytes of error results are not modelled.) -/
def GetObject (s : Sys) (bucket key rangeStr : String) :
    Except Err (GetObjectOutput × Bytes) :=
  match getNode s [bucket] with
  | none => .error (.api .NoSuchBucket)
  | some _ =>
  let dest := objPath bucket key
  match getNode s dest with
  | none => .error (.api .NoSuchKey)
  | some nd =>
  match ParseRange rangeStr with
  | .error e => .error e
  | .ok (startOffset, len0) =>
  -- directory objects are always 0 len
  let objSize : Int := match nd with | .file d => (d.length : Int) | .dir => 0
  let len1 : Int := match nd with | .dir => 0 | .file _ => len0
  let length : Int := if len1 = -1 then objSize - startOffset + 1 else len1
  if startOffset + length > objSize + 1 then .error (.api .InvalidRange)
  else
    let written : Bytes :=
      match nd with
      | .dir => []
      | .file d => (d.drop startOffset.toNat).take length.toNat
    let metadata := loadUserMetaData s dest
    let etag :=
      match RetrieveAttribute s dest etagkey with
      | .ok v => attrStr v
      | .error _ => ""
    let tagsRes : Except Err (Option Nat) :=
      match getAttrTags s dest with
      | .ok ts => .ok (some ts.length)
      | .error (.api .BucketTaggingNotFound) => .ok none
      | .error e => .error e
    match tagsRes with
    | .error e => .error e
    | .ok tagCount =>
      .ok ({ etag := etag, contentLength := length,
             metadata := metadata, tagCount := tagCount }, written)

/-! ## DeleteObject / DeleteObjects (posix.go) -/

/-- The `removeParents` loop (posix.go).  `filepath.Dir` maps a component
list to `dropLast`; the Go loop's `parent == "/"` break never fires for
these bucket-relative paths, the loop instead stops at the first parent
carrying an `etag` attribute or the first failing `os.Remove` (once the
path is exhausted, `filepath.Dir(".") = "."` makes one further iteration
against the bucket itself, after which removal necessarily fails).  Fuel
recursion (`fuel = objPath.length` at the top call) mirrors this exactly. -/
def removeParentsAux (bucket : String) : Nat → Sys → List String → Sys
  | fuel, s, objPath =>
    let parent := objPath.dropLast
    match RetrieveAttribute s (bucket :: parent) etagkey with
    | .ok _ => s
    | .error _ =>
      match osRemove s (bucket :: parent) with
      | .error _ => s
      | .ok s' =>
        match fuel, objPath with
        | _, [] => s'
        | 0, _ => s'
        | f + 1, _ :: _ => removeParentsAux bucket f s' parent

/-- `removeParents` (posix.go). -/
def removeParents (s : Sys) (bucket object : String) : Sys :=
  removeParentsAux bucket (keyPath object).length s (keyPath object)

/-- `DeleteObject` (posix.go). -/
def DeleteObject (s : Sys) (bucket key : String) : Sys × Except Err Unit :=
  match getNode s [bucket] with
  | none => (s, .error (.api .NoSuchBucket))
  | some _ =>
  match osRemove s (objPath bucket key) with
  | .error .notExist => (s, .error (.api .NoSuchKey))
  | .error _ => (s, .error (.other "delete object"))
  | .ok s1 =>
    let s2 := DeleteAttributes s1 (objPath bucket key)
    (removeParents s2 bucket key, .ok ())

structure DeleteResult where
  deleted : List String
  errs : List (String × String × String)
deriving DecidableEq, Repr

/-- The serial per-key loop of `DeleteObjects`. -/
def deleteObjectsLoop (bucket : String) : Sys → List String →
    Sys × List String × List (String × String × String)
  | s, [] => (s, [], [])
  | s, k :: ks =>
    match DeleteObject s bucket k with
    | (s1, r) =>
      match deleteObjectsLoop bucket s1 ks with
      | (s2, ds, es) =>
        match r with
        | .ok _ => (s2, k :: ds, es)
        | .error e => (s2, ds, (k, errCode e, errMsg e) :: es)

/-- `DeleteObjects` (posix.go): per-key outcomes, the batch itself always
returns a nil error. -/
def DeleteObjects (s : Sys) (bucket : String) (keys : List String) :
    Sys × Except Err DeleteResult :=
  match deleteObjectsLoop bucket s keys with
  | (s', ds, es) => (s', .ok { deleted := ds, errs := es })

/-! ## CompleteMultipartUpload (posix.go) -/

/-- `fi.Size()` of a part node (parts are regular files; a directory is
never written as a part by the backend). -/
def nodeSize : Node → Int
  | .file d => (d.length : Int)
  | .dir => 0

/-- The `os.Lstat` of a supplied part file inside the upload directory. -/
def partNode (s : Sys) (base : Path) (pn : Nat) : Option Node :=
  getNode s (base ++ [toString pn])

/-- The stored etag of a part, read as the validation loop reads it:
`string(b)` of the attribute, or "" when the read fails. -/
def storedPartEtag (s : Sys) (base : Path) (pn : Nat) : String :=
  match RetrieveAttribute s (base ++ [toString pn]) etagkey with
  | .ok v => attrStr v
  | .error _ => ""

/-- The part validation loop of `CompleteMultipartUpload` ("check all parts
ok"): every supplied (PartNumber, ETag) must name an existing part file
whose stored etag matches, and all parts except the last must have the
first part's size.  Any failure is `InvalidPart`. -/
def checkPartsAux (s : Sys) (base : Path) (last : Nat) :
    Nat → Int → Int → List (Nat × String) → Except Err Int
  | _, _, total, [] => .ok total
  | i, partsize, total, (pn, petag) :: rest =>
    match partNode s base pn with
    | none => .error (.api .InvalidPart)
    | some nd =>
      let sz := nodeSize nd
      let partsize' := if i = 0 then sz else partsize
      if i < last ∧ partsize' ≠ sz then .error (.api .InvalidPart)
      else
        if storedPartEtag s base pn ≠ petag then .error (.api .InvalidPart)
        else checkPartsAux s base last (i + 1) partsize' (total + sz) rest

/-- The part concatenation loop of `CompleteMultipartUpload`: open each part
in the supplied order and append its content to the temp file. -/
def readParts (s : Sys) (base : Path) : List (Nat × String) → Except Err Bytes
  | [] => .ok []
  | (pn, _) :: rest =>
    match partNode s base pn with
    | some (.file d) =>
      match readParts s base rest with
      | .ok ds => .ok (d ++ ds)
      | .error e => .error e
    | some .dir => .error (.other "copy part")
    | none => .error (.other "open part")

/-- Modelled from the spec: `backend.GetMultipartMD5` (§4.7, glossary, not
under the provided sources) — the composite etag is the hex MD5 of the
concatenation of the hex-decoded supplied part etags, suffixed with "-"
and the part count. -/
def GetMultipartMD5 (parts : List (Nat × String)) : String :=
  bytesToHex (md5Bytes ((parts.map fun pe => hexDecode pe.2).flatten)) ++
    "-" ++ toString parts.length

/-- The user-metadata store loop of `CompleteMultipartUpload`: unlike
`PutObject` it stores the collected keys as-is and removes the just-linked
object on failure. -/
def completeStoreMeta (s : Sys) (dest : Path) :
    List (String × String) → Sys × Except Err Unit
  | [] => (s, .ok ())
  | (k, v) :: rest =>
    match StoreAttribute s dest k (.raw (strBytes v)) with
    | .error _ => (removeNode s dest, .error (.other "set user attr"))
    | .ok s' => completeStoreMeta s' dest rest

/-- The tail of `CompleteMultipartUpload` after the destination is checked
not to be a directory: link the assembled temp file into place, store the
collected user metadata, store the composite etag, then run the cleanup
(see the note on `CompleteMultipartUpload`). -/
def completeLinkTail (s2 : Sys) (bucket key uploadID : String)
    (parts : List (Nat × String)) (data : Bytes) (um : List (String × String)) :
    Sys × Except Err String :=
  let objname := objPath bucket key
  let s3 := setNode s2 objname (.file data)
  match completeStoreMeta s3 objname um with
  | (s4, .error e) => (s4, .error e)
  | (s4, .ok ()) =>
  let s3MD5 := GetMultipartMD5 parts
  match StoreAttribute s4 objname etagkey (.raw (strBytes s3MD5)) with
  | .error _ => (removeNode s4 objname, .error (.other "set etag attr"))
  | .ok s5 =>
  -- cleanup tmp dirs (upiddir is bucket-relative, resolved at the root)
  let s6 := dropTree s5 (objdirRel key ++ [uploadID])
  let s7 :=
    match osRemove s6 (bucket :: objdirRel key) with
    | .ok s' => s'
    | .error _ => s6
  (s7, .ok s3MD5)

/-- `CompleteMultipartUpload` (posix.go).  Note the final cleanup: the
source removes `upiddir := filepath.Join(objdir, uploadID)` — a path
missing the bucket component, hence resolved against the gateway root
where it does not exist — so the upload directory in fact survives, and
the following `os.Remove` of the (nonempty) container fails and is
ignored.  The model mirrors this. -/
def CompleteMultipartUpload (s : Sys) (bucket key uploadID : String)
    (parts : List (Nat × String)) : Sys × Except Err String :=
  match getNode s [bucket] with
  | none => (s, .error (.api .NoSuchBucket))
  | some _ =>
  match getNode s (bucket :: objdirRel key ++ [uploadID]) with
  | none => (s, .error (.api .NoSuchUpload))
  | some _ =>
  match checkPartsAux s (bucket :: objdirRel key ++ [uploadID])
      (parts.length - 1) 0 0 0 parts with
  | .error e => (s, .error e)
  | .ok _totalsize =>
  match mkdirAll s [bucket, metaTmpDir] with
  | .error _ => (s, .error (.other "open temp file"))
  | .ok s1 =>
  match readParts s1 (bucket :: objdirRel key ++ [uploadID]) parts with
  | .error e => (s1, .error e)
  | .ok data =>
  let userMetaData := loadUserMetaData s1 (bucket :: objdirRel key)
  let objname := objPath bucket key
  match mkdirAll s1 objname.dropLast with
  | .error _ => (s1, .error (.other "mkdir"))
  | .ok s2 =>
  match getNode s2 objname with
  | some .dir => (s2, .error (.other "link object in namespace"))
  | _ => completeLinkTail s2 bucket key uploadID parts data userMetaData

/-! ## ListObjectsV2 start marker (posix.go) -/

/-- The effective start marker `ListObjectsV2` passes to the walk: the
ContinuationToken / StartAfter selection of posix.go. -/
def ListObjectsV2Marker (continuationToken startAfter : Option String) : String :=
  match continuationToken with
  | none => ""
  | some ct =>
    match startAfter with
    | none => ct
    | some sa => if sa > ct then sa else ct

/-! ## Basic lemmas about the state operations -/

theorem getNode_setNode (s : Sys) (p q : Path) (n : Node) :
    getNode (setNode s p n) q = if q = p then some n else getNode s q := by
  by_cases h : q = p
  · subst h
    simp [getNode, setNode, assocGet_set_self]
  · simp [getNode, setNode, assocGet_set_ne _ _ _ _ h, h]

theorem attrs_setNode (s : Sys) (p : Path) (n : Node) :
    (setNode s p n).attrs = s.attrs := rfl

theorem mkdirAllAux_preserves {s s' : Sys} {base : Path} {rest : List String}
    (h : mkdirAllAux s base rest = .ok s') :
    ∀ q n, getNode s q = some n → getNode s' q = some n := by
  induction rest generalizing s base with
  | nil =>
    simp only [mkdirAllAux] at h
    cases h
    exact fun q n hq => hq
  | cons c t ih =>
    intro q n hq
    simp only [mkdirAllAux] at h
    cases hcase : getNode s (base ++ [c]) with
    | some nd =>
      cases nd with
      | dir =>
        rw [hcase] at h
        exact ih h q n hq
      | file d =>
        rw [hcase] at h
        cases h
    | none =>
      rw [hcase] at h
      refine ih h q n ?_
      rw [getNode_setNode]
      split
      · rename_i heq
        rw [heq] at hq
        rw [hq] at hcase
        cases hcase
      · exact hq

theorem mkdirAllAux_attrs {s s' : Sys} {base : Path} {rest : List String}
    (h : mkdirAllAux s base rest = .ok s') : s'.attrs = s.attrs := by
  induction rest generalizing s base with
  | nil =>
    simp only [mkdirAllAux] at h
    cases h
    rfl
  | cons c t ih =>
    simp only [mkdirAllAux] at h
    cases hcase : getNode s (base ++ [c]) with
    | some nd =>
      cases nd with
      | dir =>
        rw [hcase] at h
        exact ih h
      | file d =>
        rw [hcase] at h
        cases h
    | none =>
      rw [hcase] at h
      rw [ih h]
      rfl

theorem mkdirAllAux_self {s s' : Sys} {base : Path} {rest : List String}
    (h : mkdirAllAux s base rest = .ok s') (hne : rest ≠ []) :
    getNode s' (base ++ rest) = some .dir := by
  induction rest generalizing s base with
  | nil => exact absurd rfl hne
  | cons c t ih =>
    simp only [mkdirAllAux] at h
    cases hcase : getNode s (base ++ [c]) with
    | some nd =>
      cases nd with
      | dir =>
        rw [hcase] at h
        cases t with
        | nil =>
          simp only [mkdirAllAux] at h
          cases h
          exact hcase
        | cons x xs =>
          have := ih h (by simp)
          simpa using this
      | file d =>
        rw [hcase] at h
        cases h
    | none =>
      rw [hcase] at h
      cases t with
      | nil =>
        simp only [mkdirAllAux] at h
        cases h
        rw [getNode_setNode]
        simp
      | cons x xs =>
        have := ih h (by simp)
        simpa using this

theorem mkdirAll_preserves {s s' : Sys} {p : Path} (h : mkdirAll s p = .ok s') :
    ∀ q n, getNode s q = some n → getNode s' q = some n :=
  mkdirAllAux_preserves h

theorem mkdirAll_attrs {s s' : Sys} {p : Path} (h : mkdirAll s p = .ok s') :
    s'.attrs = s.attrs :=
  mkdirAllAux_attrs h

theorem mkdirAll_self {s s' : Sys} {p : Path} (h : mkdirAll s p = .ok s')
    (hne : p ≠ []) : getNode s' p = some .dir := by
  have := mkdirAllAux_self h hne
  simpa using this

/-- A two-component directory chain that already exists leaves `mkdirAll`
as the identity (the `.sgwtmp` staging dir case). -/
theorem mkdirAll_pair_exists {s : Sys} {b t : String}
    (hb : getNode s [b] = some .dir) (ht : getNode s [b, t] = some .dir) :
    mkdirAll s [b, t] = .ok s := by
  simp only [mkdirAll, mkdirAllAux, List.nil_append, hb]
  have hbt : ([b] : Path) ++ [t] = [b, t] := rfl
  rw [hbt, ht]

/-! ## Claims about the ListObjectsV2 start marker -/

/-- Claim C10: with a nil ContinuationToken the effective start marker of
the ListObjectsV2 walk is the empty string even when StartAfter is set. -/
theorem claim_C10 (startAfter : Option String) :
    ListObjectsV2Marker none startAfter = "" := rfl

/-- Claim C5: when both StartAfter and ContinuationToken are present, the
effective start marker is the lexicographically greater of the two. -/
theorem claim_C5 (ct sa : String) :
    ListObjectsV2Marker (some ct) (some sa) = max ct sa := by
  simp only [ListObjectsV2Marker]
  rcases le_or_lt sa ct with h | h
  · rw [if_neg (not_lt_of_le h), max_eq_left h]
  · rw [if_pos h, max_eq_right h.le]

/-! ## Claim C9: DeleteObjects never fails the batch -/

theorem deleteObjectsLoop_perm (bucket : String) (keys : List String) (s : Sys) :
    ((deleteObjectsLoop bucket s keys).2.1 ++
      (deleteObjectsLoop bucket s keys).2.2.map (·.1)).Perm keys := by
  induction keys generalizing s with
  | nil => simp [deleteObjectsLoop]
  | cons k ks ih =>
    simp only [deleteObjectsLoop]
    cases hdel : DeleteObject s bucket k with
    | mk s1 r =>
      have hperm := ih s1
      cases hloop : deleteObjectsLoop bucket s1 ks with
      | mk s2 rest =>
        obtain ⟨ds, es⟩ := rest
        rw [hloop] at hperm
        simp only at hperm
        cases r with
        | ok _ =>
          simpa using hperm.cons k
        | error e =>
          simp only [List.map_cons]
          exact (List.perm_middle).trans (hperm.cons k)

/-- Claim C9: `DeleteObjects` itself always returns a nil error; every
requested key contributes exactly one outcome — a deleted entry or a
per-key (code, message) error — so the batch never fails as a whole. -/
theorem claim_C9 (s : Sys) (bucket : String) (keys : List String) :
    ∃ res : DeleteResult,
      (DeleteObjects s bucket keys).2 = .ok res ∧
      res.deleted.length + res.errs.length = keys.length ∧
      (res.deleted ++ res.errs.map (·.1)).Perm keys := by
  have hperm := deleteObjectsLoop_perm bucket keys s
  cases hloop : deleteObjectsLoop bucket s keys with
  | mk s' rest =>
    obtain ⟨ds, es⟩ := rest
    rw [hloop] at hperm
    simp only at hperm
    refine ⟨{ deleted := ds, errs := es }, ?_, ?_, hperm⟩
    · simp [DeleteObjects, hloop]
    · have := hperm.length_eq
      simpa using this

/-! ## Claim C8: object-lock preconditions -/

/-- Claim C8: on an existing bucket, `PutObjectLegalHold` and
`PutObjectRetention` fail with `InvalidBucketObjectLockConfiguration` and
store nothing when the bucket-lock attribute is absent or disabled; with
the lock enabled but the target key absent they fail with `NoSuchKey`. -/
theorem claim_C8 (s : Sys) (bucket key : String) (status : Bool) (retention : Bytes)
    (hb : (getNode s [bucket]).isSome) :
    ((assocGet s.attrs (([bucket] : Path), bucketLockKey) = none ∨
        assocGet s.attrs (([bucket] : Path), bucketLockKey) = some (.lock false)) →
      PutObjectLegalHold s bucket key status =
        (s, .error (.api .InvalidBucketObjectLockConfiguration)) ∧
      PutObjectRetention s bucket key retention =
        (s, .error (.api .InvalidBucketObjectLockConfiguration))) ∧
    (assocGet s.attrs (([bucket] : Path), bucketLockKey) = some (.lock true) →
      getNode s (objPath bucket key) = none →
      PutObjectLegalHold s bucket key status = (s, .error (.api .NoSuchKey)) ∧
      PutObjectRetention s bucket key retention = (s, .error (.api .NoSuchKey))) := by
  obtain ⟨bn, hbn⟩ := Option.isSome_iff_exists.mp hb
  constructor
  · intro hl
    rcases hl with hl | hl <;>
      constructor <;>
        simp only [PutObjectLegalHold, PutObjectRetention, RetrieveAttribute,
          hbn, hl, decodeLock, Bool.not_false, if_pos, if_true]
  · intro hl hk
    constructor <;>
      simp only [PutObjectLegalHold, PutObjectRetention, RetrieveAttribute,
        hbn, hl, decodeLock, Bool.not_true, StoreAttribute, hk, if_false,
        Bool.false_eq_true, if_neg]

def c8LockAbsent : Sys := { fs := [(["b"], .dir)], attrs := [] }

def c8LockOn : Sys :=
  { fs := [(["b"], .dir)], attrs := [(((["b"] : Path), bucketLockKey), .lock true)] }

theorem claim_C8_witness :
    PutObjectLegalHold c8LockAbsent "b" "k" true =
      (c8LockAbsent, .error (.api .InvalidBucketObjectLockConfiguration)) ∧
    PutObjectRetention c8LockOn "b" "k" [1] = (c8LockOn, .error (.api .NoSuchKey)) :=
  ⟨((claim_C8 c8LockAbsent "b" "k" true [1] (by decide)).1 (Or.inl (by decide))).1,
   ((claim_C8 c8LockOn "b" "k" true [1] (by decide)).2 (by decide) (by decide)).2⟩

/-! ## Attribute-name disequalities -/

theorem strAppend_left_cancel {a b c : String} (h : a ++ b = a ++ c) : b = c := by
  have hd := congrArg String.data h
  simp only [String.data_append] at hd
  have hbc := List.append_cancel_left hd
  cases b
  cases c
  exact congrArg String.mk hbc

theorem metaKey_inj {k k' : String}
    (h : metaHdr ++ "." ++ k = metaHdr ++ "." ++ k') : k = k' :=
  strAppend_left_cancel h

theorem metaKey_ne_etagkey (k : String) : metaHdr ++ "." ++ k ≠ etagkey := by
  intro h
  have h1 := congrArg String.length h
  rw [String.length_append] at h1
  have h2 : (11 : Nat) + k.length = 4 := h1
  omega

theorem metaKeyChars (k : String) :
    (metaHdr ++ "." ++ k).data = metaHdr.data ++ ['.'] ++ k.data := by
  simp [String.data_append]

theorem metaKey_ne_tagHdr (k : String) : metaHdr ++ "." ++ k ≠ tagHdr := by
  intro h
  have h6 := congrArg (fun t : String => t.data.get? 6) h
  simp only [metaKeyChars] at h6
  rw [List.get?_append (by decide : (6 : Nat) < (metaHdr.data ++ ['.']).length)] at h6
  have hL : (metaHdr.data ++ ['.']).get? 6 = some 'M' := by decide
  have hR : tagHdr.data.get? 6 = some 'T' := by decide
  rw [hL, hR] at h6
  cases h6

theorem metaKey_ne_legalHold (k : String) : metaHdr ++ "." ++ k ≠ objectLegalHoldKey := by
  intro h
  have h6 := congrArg (fun t : String => t.data.get? 0) h
  simp only [metaKeyChars] at h6
  rw [List.get?_append (by decide : (0 : Nat) < (metaHdr.data ++ ['.']).length)] at h6
  have hL : (metaHdr.data ++ ['.']).get? 0 = some 'X' := by decide
  have hR : objectLegalHoldKey.data.get? 0 = some 'o' := by decide
  rw [hL, hR] at h6
  cases h6

theorem metaKey_ne_retention (k : String) : metaHdr ++ "." ++ k ≠ objectRetentionKey := by
  intro h
  have h6 := congrArg (fun t : String => t.data.get? 0) h
  simp only [metaKeyChars] at h6
  rw [List.get?_append (by decide : (0 : Nat) < (metaHdr.data ++ ['.']).length)] at h6
  have hL : (metaHdr.data ++ ['.']).get? 0 = some 'X' := by decide
  have hR : objectRetentionKey.data.get? 0 = some 'o' := by decide
  rw [hL, hR] at h6
  cases h6

/-- `StoreAttribute` on an existing path, with the result spelled out. -/
theorem StoreAttribute_ok {s : Sys} {p : Path} {n : Node} (hp : getNode s p = some n)
    (k : String) (v : AttrVal) :
    StoreAttribute s p k v = .ok ⟨s.fs, assocSet s.attrs (p, k) v⟩ := by
  simp only [StoreAttribute, hp]

/-! ## The PutObject user-metadata loop -/

theorem storeUserMeta_ok {s : Sys} {p : Path} {n : Node}
    (md : List (String × String)) (hp : getNode s p = some n) :
    ∃ s', storeUserMeta s p md = (s', .ok ()) ∧
      s'.fs = s.fs ∧
      (∀ q kk, (q ≠ p ∨ ∀ pr ∈ md, kk ≠ metaHdr ++ "." ++ pr.1) →
        assocGet s'.attrs (q, kk) = assocGet s.attrs (q, kk)) ∧
      ((md.map Prod.fst).Nodup →
        ∀ pr ∈ md, assocGet s'.attrs (p, metaHdr ++ "." ++ pr.1) =
          some (.raw (strBytes pr.2))) := by
  induction md generalizing s with
  | nil => exact ⟨s, rfl, rfl, fun q kk _ => rfl, fun _ pr hpr => absurd hpr (by simp)⟩
  | cons kv rest ih =>
    obtain ⟨k, v⟩ := kv
    have hstore : StoreAttribute s p (metaHdr ++ "." ++ k) (.raw (strBytes v)) =
        .ok { s with attrs := assocSet s.attrs (p, metaHdr ++ "." ++ k) (.raw (strBytes v)) } := by
      simp only [StoreAttribute, hp]
    set s1 : Sys :=
      { s with attrs := assocSet s.attrs (p, metaHdr ++ "." ++ k) (.raw (strBytes v)) } with hs1
    have hp1 : getNode s1 p = some n := hp
    obtain ⟨s', hrun, hfs, hpres, hvals⟩ := ih hp1
    refine ⟨s', ?_, hfs, ?_, ?_⟩
    · simp only [storeUserMeta, hstore, hrun]
    · intro q kk hcond
      have hcond' : q ≠ p ∨ ∀ pr ∈ rest, kk ≠ metaHdr ++ "." ++ pr.1 := by
        rcases hcond with h | h
        · exact Or.inl h
        · exact Or.inr fun pr hpr => h pr (List.mem_cons_of_mem _ hpr)
      rw [hpres q kk hcond']
      have hne : (q, kk) ≠ (p, metaHdr ++ "." ++ k) := by
        rcases hcond with h | h
        · intro hc
          exact h (congrArg Prod.fst hc)
        · intro hc
          exact h (k, v) (List.mem_cons_self _ _) (congrArg Prod.snd hc)
      exact assocGet_set_ne _ _ _ _ hne
    · intro hnd pr hpr
      have hnd' : (rest.map Prod.fst).Nodup := by
        simpa using hnd.of_cons
      rcases List.mem_cons.mp hpr with heq | hmem
      · subst heq
        have hnotin : ∀ pr' ∈ rest, metaHdr ++ "." ++ k ≠ metaHdr ++ "." ++ pr'.1 := by
          intro pr' hpr' hc
          have : k = pr'.1 := metaKey_inj hc
          have : k ∈ rest.map Prod.fst := this ▸ List.mem_map_of_mem Prod.fst hpr'
          simp only [List.map_cons, List.nodup_cons] at hnd
          exact hnd.1 this
        rw [hpres p (metaHdr ++ "." ++ k) (Or.inr hnotin)]
        exact assocGet_set_self _ _ _
      · exact hvals hnd' pr hmem

/-! ## Claim C7: directory-object PutObject -/

/-- Claim C7: a PutObject of a key ending in "/" fails with
`DirectoryObjectContainsData` and changes nothing when the content length
is non-zero; with an empty body it creates the directory, stores the user
metadata, and stores and returns the etag `d41d8cd98f00b204e9800998ecf8427e`,
the MD5 of the empty string. -/
theorem claim_C7 (s : Sys) (po : PutObjectInput)
    (hslash : endsWithSlash po.key = true)
    (hb : (getNode s [po.bucket]).isSome)
    (htags : po.tagging = none)
    (hnd : (po.metadata.map Prod.fst).Nodup) :
    (po.contentLength ≠ 0 →
      PutObject s po = (s, .error (.api .DirectoryObjectContainsData))) ∧
    (po.contentLength = 0 →
      ∀ s1, mkdirAll s (objPath po.bucket po.key) = .ok s1 →
        (PutObject s po).2 = .ok emptyMD5 ∧
        emptyMD5 = md5Hex [] ∧
        getNode (PutObject s po).1 (objPath po.bucket po.key) = some .dir ∧
        assocGet (PutObject s po).1.attrs (objPath po.bucket po.key, etagkey) =
          some (.raw (strBytes emptyMD5)) ∧
        ∀ pr ∈ po.metadata,
          assocGet (PutObject s po).1.attrs
              (objPath po.bucket po.key, metaHdr ++ "." ++ pr.1) =
            some (.raw (strBytes pr.2))) := by
  obtain ⟨bn, hbn⟩ := Option.isSome_iff_exists.mp hb
  constructor
  · intro hcl
    simp only [PutObject, hbn, htags, Option.getD, hslash, if_true, if_pos hcl]
  · intro hcl s1 hmk
    have hname : objPath po.bucket po.key ≠ [] := by simp [objPath]
    have hdir1 : getNode s1 (objPath po.bucket po.key) = some .dir :=
      mkdirAll_self hmk hname
    obtain ⟨s2, hrun, hfs2, hpres2, hvals2⟩ := storeUserMeta_ok po.metadata hdir1
    have hdir2 : getNode s2 (objPath po.bucket po.key) = some .dir := by
      rw [getNode, hfs2]
      exact hdir1
    have hstore := StoreAttribute_ok hdir2 etagkey (.raw (strBytes emptyMD5))
    have hresult : PutObject s po =
        (⟨s2.fs, assocSet s2.attrs (objPath po.bucket po.key, etagkey)
            (.raw (strBytes emptyMD5))⟩, .ok emptyMD5) := by
      simp only [PutObject, hbn, htags, Option.getD, hslash, if_true, hcl,
        ne_eq, not_true_eq_false, if_false, hmk, hrun, hstore]
    refine ⟨?_, by decide, ?_, ?_, ?_⟩
    · rw [hresult]
    · rw [hresult]
      show assocGet s2.fs _ = _
      exact hdir2
    · rw [hresult]
      exact assocGet_set_self _ _ _
    · intro pr hpr
      rw [hresult]
      show assocGet (assocSet s2.attrs _ _) _ = _
      rw [assocGet_set_ne _ _ _ _
        (by intro hc; exact metaKey_ne_etagkey pr.1 (congrArg Prod.snd hc))]
      exact hvals2 hnd pr hpr

def c7Sys : Sys := { fs := [(["b"], .dir)], attrs := [] }

def c7PutDir : PutObjectInput :=
  { bucket := "b", key := "d/", contentLength := 0, body := [], tagging := none,
    metadata := [("color", "red")], legalHold := false, retention := none }

def c7PutData : PutObjectInput :=
  { bucket := "b", key := "d/", contentLength := 3, body := [1, 2, 3],
    tagging := none, metadata := [], legalHold := false, retention := none }

theorem claim_C7_witness :
    PutObject c7Sys c7PutData = (c7Sys, .error (.api .DirectoryObjectContainsData)) ∧
    (PutObject c7Sys c7PutDir).2 = .ok emptyMD5 ∧
    getNode (PutObject c7Sys c7PutDir).1 (objPath "b" "d/") = some .dir :=
  ⟨(claim_C7 c7Sys c7PutData (by decide) (by decide) rfl (by decide)).1 (by decide),
   ((claim_C7 c7Sys c7PutDir (by decide) (by decide) rfl (by decide)).2 rfl
      { fs := [(["b"], .dir), (["b", "d"], .dir)], attrs := [] } (by decide)).1,
   (((claim_C7 c7Sys c7PutDir (by decide) (by decide) rfl (by decide)).2 rfl
      { fs := [(["b"], .dir), (["b", "d"], .dir)], attrs := [] } (by decide)).2.2).1⟩

/-! ## Claim C6: GetObject ranges

The claim fails on the code: with an explicit-end range whose start is
beyond the last byte but whose end does not exceed the file size (only
`bytes=size-size` qualifies), and with every open-ended range `bytes=s-`,
the EOF guard `startOffset+length > objSize+1` does not fire, and the call
succeeds writing zero bytes instead of returning InvalidRange. -/

def c6Sys : Sys :=
  { fs := [(["b"], .dir), (["b", "k"], .file (strBytes "hello"))], attrs := [] }

/-- Counterexample to claim C6: on the 5-byte object "hello" the range
`bytes=5-5` starts past the last byte (index 4), yet GetObject succeeds
and writes zero bytes instead of returning InvalidRange. -/
theorem claim_C6_counterexample :
    GetObject c6Sys "b" "k" "bytes=5-5" =
      .ok ({ etag := "", contentLength := 1, metadata := [], tagCount := none }, []) := by
  decide

/-- Claim C6 as amended: for an explicit-end range `InvalidRange` is
returned exactly when `start + length` exceeds `size + 1`, i.e. when the
requested end offset exceeds the file size (a start past EOF alone does
not suffice: `bytes=size-size` and any open-ended `bytes=s-` succeed with
zero bytes written); `bytes=0-0` writes `take 1` of the content (exactly
one byte whenever the object is nonempty) and `bytes=0-` writes the whole
content. -/
theorem claim_C6_amended (s : Sys) (bucket key : String) (d : Bytes)
    (hb : (getNode s [bucket]).isSome)
    (hd : getNode s (objPath bucket key) = some (.file d))
    (htag : ∀ v, assocGet s.attrs (objPath bucket key, tagHdr) = some v →
      ∃ ts, v = .tags ts) :
    (∀ rangeStr a len, ParseRange rangeStr = .ok (a, len) → len ≠ -1 →
      (GetObject s bucket key rangeStr = .error (.api .InvalidRange) ↔
        a + len > (d.length : Int) + 1)) ∧
    (∃ out, GetObject s bucket key "bytes=0-" = .ok (out, d)) ∧
    (∃ out, GetObject s bucket key "bytes=0-0" = .ok (out, d.take 1)) := by
  obtain ⟨bn, hbn⟩ := Option.isSome_iff_exists.mp hb
  have htags' : ∃ tc, (match getAttrTags s (objPath bucket key) with
      | .ok ts => (Except.ok (some ts.length) : Except Err (Option Nat))
      | .error (.api .BucketTaggingNotFound) => .ok none
      | .error e => .error e) = .ok tc := by
    simp only [getAttrTags, RetrieveAttribute, hd]
    cases hattr : assocGet s.attrs (objPath bucket key, tagHdr) with
    | none => exact ⟨none, rfl⟩
    | some v =>
      obtain ⟨ts, hts⟩ := htag v hattr
      subst hts
      exact ⟨some ts.length, rfl⟩
  obtain ⟨tc, htc⟩ := htags'
  refine ⟨?_, ?_, ?_⟩
  · intro rangeStr a len hr hlen
    simp only [GetObject, hbn, hd, hr, if_neg hlen]
    by_cases hcond : a + len > (d.length : Int) + 1
    · rw [if_pos hcond]
      simp [hcond]
    · rw [if_neg hcond, htc]
      constructor
      · intro hres
        cases hres
      · intro hc
        exact absurd hc hcond
  · have hr : ParseRange "bytes=0-" = .ok (0, -1) := by decide
    simp only [GetObject, hbn, hd, hr, if_pos rfl, if_true]
    have hcond : ¬ ((0 : Int) + ((d.length : Int) - 0 + 1) > (d.length : Int) + 1) := by
      omega
    have hw : (d.drop (Int.toNat 0)).take ((d.length : Int) - 0 + 1).toNat = d := by
      simp only [Int.toNat_zero, List.drop_zero]
      have h1 : ((d.length : Int) - 0 + 1).toNat = d.length + 1 := by omega
      rw [h1]
      exact List.take_of_length_le (by omega)
    rw [if_neg hcond, htc, hw]
    exact ⟨_, rfl⟩
  · have hr : ParseRange "bytes=0-0" = .ok (0, 1) := by decide
    simp only [GetObject, hbn, hd, hr]
    have hne : (1 : Int) ≠ -1 := by decide
    rw [if_neg hne]
    have hcond : ¬ ((0 : Int) + 1 > (d.length : Int) + 1) := by omega
    have hw : (d.drop (Int.toNat 0)).take (1 : Int).toNat = d.take 1 := by
      simp
    rw [if_neg hcond, htc, hw]
    exact ⟨_, rfl⟩

theorem claim_C6_witness :
    GetObject c6Sys "b" "k" "bytes=0-7" = .error (.api .InvalidRange) ∧
    (∃ out, GetObject c6Sys "b" "k" "bytes=0-" = .ok (out, strBytes "hello")) :=
  ⟨((claim_C6_amended c6Sys "b" "k" (strBytes "hello") (by decide) (by decide)
      (fun v hv => nomatch hv)).1 "bytes=0-7" 0 8 (by decide) (by decide)).mpr
      (by decide),
   ((claim_C6_amended c6Sys "b" "k" (strBytes "hello") (by decide) (by decide)
      (fun v hv => nomatch hv)).2).1⟩

/-! ## Claim C4: parent directory removal on DeleteObject

The scenario family of the claim: bucket "B", a PutObject of key
`a/b/c/k` followed by a DeleteObject of that key, where each of the
parents `a`, `a/b`, `a/b/c` may pre-exist as a directory-object carrying
an `etag` attribute (flags `e1 e2 e3`); parents without the flag are
auto-created by the PUT.  The claim's per-directory "removed iff no etag"
fails: the upward walk stops at the first etag-carrying parent, so a
parent above it survives even without an etag. -/

def c4Bucket (e1 e2 e3 : Bool) : Sys :=
  { fs := [((["B"] : Path), Node.dir)] ++
      (if e1 then [((["B", "a"] : Path), Node.dir)] else []) ++
      (if e2 then [((["B", "a", "b"] : Path), Node.dir)] else []) ++
      (if e3 then [((["B", "a", "b", "c"] : Path), Node.dir)] else []),
    attrs :=
      (if e1 then [(((["B", "a"] : Path), etagkey), AttrVal.raw (strBytes emptyMD5))] else []) ++
      (if e2 then [(((["B", "a", "b"] : Path), etagkey), AttrVal.raw (strBytes emptyMD5))] else []) ++
      (if e3 then [(((["B", "a", "b", "c"] : Path), etagkey), AttrVal.raw (strBytes emptyMD5))] else []) }

def c4Po : PutObjectInput :=
  { bucket := "B", key := "a/b/c/k", contentLength := 2, body := [104, 105],
    tagging := none, metadata := [], legalHold := false, retention := none }

def c4After (e1 e2 e3 : Bool) : Sys :=
  (DeleteObject (PutObject (c4Bucket e1 e2 e3) c4Po).1 "B" "a/b/c/k").1

/-- Counterexample to claim C4: with `a/b` a directory-object (etag
present) and `a`, `a/b/c` plain, after the PutObject/DeleteObject pair the
parent `a` carries no etag attribute and yet has NOT been removed — the
upward removal stopped at `a/b` below it.  This refutes "each parent has
been removed if and only if it carried no etag attribute". -/
theorem claim_C4_counterexample :
    getNode (c4After false true false) ["B", "a"] = some .dir ∧
    assocGet (c4After false true false).attrs ((["B", "a"] : Path), etagkey) = none := by
  decide

/-- Claim C4 as amended: in the claim's scenario the PUT and DELETE both
succeed, and a parent directory is removed iff neither it nor any parent
below it (closer to the key) carries an `etag` attribute; equivalently the
bottom-up walk stops at the first etag-carrying parent, which remains in
place together with every parent above it.  (When no parent carries an
etag — the literally "otherwise empty" bucket — all three are removed,
as the original claim states.) -/
theorem claim_C4_amended (e1 e2 e3 : Bool) :
    (PutObject (c4Bucket e1 e2 e3) c4Po).2 = .ok (md5Hex [104, 105]) ∧
    (DeleteObject (PutObject (c4Bucket e1 e2 e3) c4Po).1 "B" "a/b/c/k").2 = .ok () ∧
    getNode (c4After e1 e2 e3) ["B", "a", "b", "c", "k"] = none ∧
    ((getNode (c4After e1 e2 e3) ["B", "a", "b", "c"] = none) ↔ e3 = false) ∧
    ((getNode (c4After e1 e2 e3) ["B", "a", "b"] = none) ↔ (e3 = false ∧ e2 = false)) ∧
    ((getNode (c4After e1 e2 e3) ["B", "a"] = none) ↔
      (e3 = false ∧ e2 = false ∧ e1 = false)) := by
  cases e1 <;> cases e2 <;> cases e3 <;> decide

/-! ## Claim C1: invalid multipart completion mutates nothing -/

/-- Inversion of one step of the part-validation loop. -/
theorem checkPartsAux_cons_ok {s : Sys} {base : Path} {last i : Nat}
    {psize total t : Int} {pn : Nat} {petag : String} {rest : List (Nat × String)}
    (h : checkPartsAux s base last i psize total ((pn, petag) :: rest) = .ok t) :
    ∃ nd, partNode s base pn = some nd ∧
      ¬ (i < last ∧ (if i = 0 then nodeSize nd else psize) ≠ nodeSize nd) ∧
      storedPartEtag s base pn = petag ∧
      checkPartsAux s base last (i + 1) (if i = 0 then nodeSize nd else psize)
        (total + nodeSize nd) rest = .ok t := by
  simp only [checkPartsAux] at h
  cases hpn : partNode s base pn with
  | none =>
    rw [hpn] at h
    cases h
  | some nd =>
    rw [hpn] at h
    simp only at h
    by_cases h1 : i < last ∧ (if i = 0 then nodeSize nd else psize) ≠ nodeSize nd
    · rw [if_pos h1] at h
      cases h
    · rw [if_neg h1] at h
      by_cases h2 : storedPartEtag s base pn ≠ petag
      · rw [if_pos h2] at h
        cases h
      · rw [if_neg h2] at h
        exact ⟨nd, rfl, h1, not_not.mp h2, h⟩

/-- Every error of the validation loop is `InvalidPart`. -/
theorem checkPartsAux_error {s : Sys} {base : Path} :
    ∀ (rest : List (Nat × String)) {last i : Nat} {psize total : Int} {e : Err},
      checkPartsAux s base last i psize total rest = .error e →
      e = .api .InvalidPart := by
  intro rest
  induction rest with
  | nil =>
    intro last i psize total e h
    cases h
  | cons pe rest ih =>
    intro last i psize total e h
    obtain ⟨pn, petag⟩ := pe
    simp only [checkPartsAux] at h
    cases hpn : partNode s base pn with
    | none =>
      rw [hpn] at h
      cases h
      rfl
    | some nd =>
      rw [hpn] at h
      simp only at h
      by_cases h1 : i < last ∧ (if i = 0 then nodeSize nd else psize) ≠ nodeSize nd
      · rw [if_pos h1] at h
        cases h
        rfl
      · rw [if_neg h1] at h
        by_cases h2 : storedPartEtag s base pn ≠ petag
        · rw [if_pos h2] at h
          cases h
          rfl
        · rw [if_neg h2] at h
          exact ih h

/-- A successful validation loop implies every supplied pair names an
existing part with a matching stored etag. -/
theorem checkPartsAux_ok_mem {s : Sys} {base : Path} :
    ∀ (rest : List (Nat × String)) {last i : Nat} {psize total t : Int},
      checkPartsAux s base last i psize total rest = .ok t →
      ∀ pe ∈ rest, (∃ nd, partNode s base pe.1 = some nd) ∧
        storedPartEtag s base pe.1 = pe.2 := by
  intro rest
  induction rest with
  | nil =>
    intro last i psize total t _ pe hpe
    exact absurd hpe (by simp)
  | cons hd rest ih =>
    intro last i psize total t h pe hpe
    obtain ⟨pn, petag⟩ := hd
    obtain ⟨nd, hnd, _, hetag, hrec⟩ := checkPartsAux_cons_ok h
    rcases List.mem_cons.mp hpe with heq | hmem
    · subst heq
      exact ⟨⟨nd, hnd⟩, hetag⟩
    · exact ih hrec pe hmem

/-- A successful validation loop started past index 0 keeps every part
before the last at the carried `psize`. -/
theorem checkPartsAux_ok_size {s : Sys} {base : Path} :
    ∀ (rest : List (Nat × String)) {last i : Nat} {psize total t : Int},
      1 ≤ i →
      checkPartsAux s base last i psize total rest = .ok t →
      ∀ j, j < rest.length → i + j < last →
        (match partNode s base (rest.getD j (0, "")).1 with
         | some nd => nodeSize nd
         | none => 0) = psize := by
  intro rest
  induction rest with
  | nil =>
    intro last i psize total t _ _ j hj
    exact absurd hj (by simp)
  | cons hd rest ih =>
    intro last i psize total t hi h j hj hlast
    obtain ⟨pn, petag⟩ := hd
    obtain ⟨nd, hnd, hchk, _, hrec⟩ := checkPartsAux_cons_ok h
    have hine : ¬ i = 0 := by omega
    rw [if_neg hine] at hchk hrec
    cases j with
    | zero =>
      rw [List.getD_cons_zero]
      simp only [hnd]
      by_contra hne
      exact hchk ⟨by omega, fun hq => hne hq.symm⟩
    | succ j' =>
      rw [List.getD_cons_succ]
      exact ih (by omega) hrec j' (by simpa using hj) (by omega)

/-- The size of the part named at position `i` of the supplied list, as the
validation loop observes it (0 when the part file is absent). -/
def partSizeAt (s : Sys) (base : Path) (parts : List (Nat × String)) (i : Nat) : Int :=
  match partNode s base (parts.getD i (0, "")).1 with
  | some nd => nodeSize nd
  | none => 0

/-- The claim's hypothesis: some supplied (PartNumber, ETag) pair does not
match an existing part's stored etag, or some part other than the last has
a size different from the first part's. -/
def PartsMismatch (s : Sys) (base : Path) (parts : List (Nat × String)) : Prop :=
  (∃ pe ∈ parts, partNode s base pe.1 = none ∨ storedPartEtag s base pe.1 ≠ pe.2) ∨
  (∃ i, i < parts.length - 1 ∧ partSizeAt s base parts i ≠ partSizeAt s base parts 0)

/-- Claim C1: a CompleteMultipartUpload whose supplied part list mismatches
(etag or non-final size) returns `InvalidPart` and performs no mutation:
the returned state is the input state, so the destination key is not
created and no upload state is removed. -/
theorem claim_C1 (s : Sys) (bucket key uploadID : String)
    (parts : List (Nat × String))
    (hb : (getNode s [bucket]).isSome)
    (hup : (getNode s (bucket :: objdirRel key ++ [uploadID])).isSome)
    (hmis : PartsMismatch s (bucket :: objdirRel key ++ [uploadID]) parts) :
    CompleteMultipartUpload s bucket key uploadID parts =
      (s, .error (.api .InvalidPart)) := by
  obtain ⟨bn, hbn⟩ := Option.isSome_iff_exists.mp hb
  obtain ⟨un, hun⟩ := Option.isSome_iff_exists.mp hup
  cases hcp : checkPartsAux s (bucket :: objdirRel key ++ [uploadID])
      (parts.length - 1) 0 0 0 parts with
  | error e =>
    have he := checkPartsAux_error parts hcp
    subst he
    simp only [CompleteMultipartUpload, hbn, hun, hcp]
  | ok t =>
    exfalso
    rcases hmis with ⟨pe, hmem, hbad⟩ | ⟨i, hi, hne⟩
    · obtain ⟨⟨nd, hnd⟩, hetag⟩ := checkPartsAux_ok_mem parts hcp pe hmem
      rcases hbad with hb' | hb'
      · rw [hnd] at hb'
        cases hb'
      · exact hb' hetag
    · cases parts with
      | nil =>
        simp only [List.length_nil] at hi
        omega
      | cons p0 rest =>
        obtain ⟨pn0, petag0⟩ := p0
        obtain ⟨nd0, hnd0, _, _, hrec0⟩ := checkPartsAux_cons_ok hcp
        rw [if_pos rfl] at hrec0
        have hps0 : partSizeAt s (bucket :: objdirRel key ++ [uploadID])
            ((pn0, petag0) :: rest) 0 = nodeSize nd0 := by
          simp only [partSizeAt, List.getD_cons_zero, hnd0]
        cases i with
        | zero => exact hne rfl
        | succ j =>
          have hlen : ((pn0, petag0) :: rest).length - 1 = rest.length := by simp
          rw [hlen] at hi
          have hsz := checkPartsAux_ok_size rest (by omega) hrec0 j (by omega) (by omega)
          apply hne
          rw [hps0]
          simpa only [partSizeAt, List.getD_cons_succ] using hsz

def c1Base : Path := "b" :: objdirRel "k" ++ ["u1"]

def c1Sys : Sys :=
  { fs := [(["b"], .dir), (["b", metaTmpDir], .dir),
           (["b", metaTmpDir, "multipart"], .dir),
           (("b" :: objdirRel "k"), .dir), (c1Base, .dir),
           (c1Base ++ ["1"], .file [97, 97]), (c1Base ++ ["2"], .file [98])],
    attrs := [((c1Base ++ ["1"], etagkey), .raw (strBytes (md5Hex [97, 97]))),
              ((c1Base ++ ["2"], etagkey), .raw (strBytes (md5Hex [98])))] }

theorem claim_C1_witness :
    CompleteMultipartUpload c1Sys "b" "k" "u1" [(1, md5Hex [97, 97]), (2, "mismatch")] =
      (c1Sys, .error (.api .InvalidPart)) :=
  claim_C1 c1Sys "b" "k" "u1" [(1, md5Hex [97, 97]), (2, "mismatch")]
    (by decide) (by decide)
    (Or.inl ⟨(2, "mismatch"), by decide, Or.inr (by decide)⟩)

/-! ## Claim C3: successful multipart completion -/

theorem assocGet_filter {α β : Type} [DecidableEq α] (l : List (α × β)) (f : α → Bool)
    (k : α) (hk : f k = true) :
    assocGet (l.filter fun e => f e.1) k = assocGet l k := by
  induction l with
  | nil => rfl
  | cons hd t ih =>
    obtain ⟨a, b⟩ := hd
    by_cases hak : a = k
    · subst hak
      simp only [List.filter_cons]
      rw [if_pos hk]
      simp [assocGet, ih]
    · cases hfa : f a
      · simp only [List.filter_cons]
        rw [hfa]
        simp only [Bool.false_eq_true, if_false]
        rw [ih]
        simp [assocGet, hak]
      · simp only [List.filter_cons]
        rw [hfa]
        simp only [if_true]
        simp [assocGet, hak, ih]

theorem isPrefixOf_false {p q : Path} (h : ¬ p <+: q) : p.isPrefixOf q = false := by
  cases hpq : List.isPrefixOf p q with
  | false => rfl
  | true => exact absurd (List.isPrefixOf_iff_prefix.mp hpq) h

theorem getNode_dropTree {s : Sys} {p q : Path} (h : ¬ p <+: q) :
    getNode (dropTree s p) q = getNode s q := by
  have hk : (!(p.isPrefixOf q)) = true := by
    rw [isPrefixOf_false h]
    rfl
  exact assocGet_filter s.fs (fun x => !(p.isPrefixOf x)) q hk

theorem attrs_dropTree {s : Sys} {p q : Path} {kk : String} (h : ¬ p <+: q) :
    assocGet (dropTree s p).attrs (q, kk) = assocGet s.attrs (q, kk) := by
  have hk : (!(p.isPrefixOf (q, kk).1)) = true := by
    show (!(p.isPrefixOf q)) = true
    rw [isPrefixOf_false h]
    rfl
  exact assocGet_filter s.attrs (fun x => !(p.isPrefixOf x.1)) (q, kk) hk

theorem getNode_removeNode {s : Sys} {p q : Path} (h : q ≠ p) :
    getNode (removeNode s p) q = getNode s q := by
  have hk : (decide (q ≠ p)) = true := by simp [h]
  exact assocGet_filter s.fs (fun x => decide (x ≠ p)) q hk

theorem attrs_removeNode {s : Sys} {p q : Path} {kk : String} (h : q ≠ p) :
    assocGet (removeNode s p).attrs (q, kk) = assocGet s.attrs (q, kk) := by
  have hk : (decide ((q, kk).1 ≠ p)) = true := by simp [h]
  exact assocGet_filter s.attrs (fun x => decide (x.1 ≠ p)) (q, kk) hk

theorem mkdirAllAux_outside {s s' : Sys} {base : Path} {rest : List String}
    (h : mkdirAllAux s base rest = .ok s') :
    ∀ q, ¬ (q <+: base ++ rest) → getNode s' q = getNode s q := by
  induction rest generalizing s base with
  | nil =>
    simp only [mkdirAllAux] at h
    cases h
    exact fun q _ => rfl
  | cons c t ih =>
    intro q hq
    have hq' : ¬ (q <+: (base ++ [c]) ++ t) := by
      simpa [List.append_assoc] using hq
    simp only [mkdirAllAux] at h
    cases hcase : getNode s (base ++ [c]) with
    | some nd =>
      cases nd with
      | dir =>
        rw [hcase] at h
        exact ih h q hq'
      | file d =>
        rw [hcase] at h
        cases h
    | none =>
      rw [hcase] at h
      have hqc : q ≠ base ++ [c] := by
        intro hqe
        exact hq ⟨t, by simp [hqe]⟩
      rw [ih h q hq', getNode_setNode]
      rw [if_neg hqc]

theorem mkdirAll_outside {s s' : Sys} {p : Path} (h : mkdirAll s p = .ok s')
    (q : Path) (hq : ¬ q <+: p) : getNode s' q = getNode s q :=
  mkdirAllAux_outside h q (by simpa using hq)

/-- The state of a completed upload's parts: the supplied list names part
files with contents `ds` in order, each stored part etag is the hex MD5 of
its content, and each supplied etag matches it. -/
def PartsAre (s : Sys) (base : Path) : List (Nat × String) → List Bytes → Prop
  | [], [] => True
  | (pn, pe) :: ps, d :: dss =>
      partNode s base pn = some (.file d) ∧
      storedPartEtag s base pn = md5Hex d ∧
      pe = md5Hex d ∧
      PartsAre s base ps dss
  | _ :: _, [] => False
  | [], _ :: _ => False

theorem PartsAre_length {s : Sys} {base : Path} :
    ∀ {ps : List (Nat × String)} {dss : List Bytes},
      PartsAre s base ps dss → ps.length = dss.length := by
  intro ps
  induction ps with
  | nil =>
    intro dss h
    cases dss with
    | nil => rfl
    | cons d t => exact absurd h (by simp [PartsAre])
  | cons pe ps ih =>
    intro dss h
    obtain ⟨pn, petag⟩ := pe
    cases dss with
    | nil => exact absurd h (by simp [PartsAre])
    | cons d t =>
      obtain ⟨_, _, _, hrest⟩ := h
      simpa using ih hrest

theorem checkPartsAux_ok_of_high {s : Sys} {base : Path} :
    ∀ (ps : List (Nat × String)) (dss : List Bytes) {last i : Nat} {psize total : Int},
      1 ≤ i → PartsAre s base ps dss →
      (∀ j, j < ps.length → i + j < last → ((dss.getD j []).length : Int) = psize) →
      ∃ t, checkPartsAux s base last i psize total ps = .ok t := by
  intro ps
  induction ps with
  | nil =>
    intro dss last i psize total _ _ _
    exact ⟨total, rfl⟩
  | cons pe ps ih =>
    intro dss last i psize total hi hpa hsz
    obtain ⟨pn, petag⟩ := pe
    cases dss with
    | nil => exact absurd hpa (by simp [PartsAre])
    | cons d dss =>
      obtain ⟨hnd, hstored, hpe, hrest⟩ := hpa
      have hine : ¬ i = 0 := by omega
      have hszrest : ∀ j, j < ps.length → (i + 1) + j < last →
          ((dss.getD j []).length : Int) = psize := by
        intro j hj hlast
        have h1 : j + 1 < ((pn, petag) :: ps).length := by
          simp only [List.length_cons]
          omega
        have h2 : i + (j + 1) < last := by omega
        have h3 := hsz (j + 1) h1 h2
        simpa only [List.getD_cons_succ] using h3
      obtain ⟨t, ht⟩ :=
        @ih dss last (i + 1) psize (total + nodeSize (.file d)) (by omega) hrest hszrest
      refine ⟨t, ?_⟩
      simp only [checkPartsAux, hnd]
      split
      · rename_i hzero
        exact absurd hzero hine
      · split
        · rename_i hcond
          exfalso
          obtain ⟨hil, hne⟩ := hcond
          have h0 := hsz 0 (by simp) (by omega)
          simp only [List.getD_cons_zero] at h0
          exact hne (by simpa [nodeSize] using h0.symm)
        · split
          · rename_i hcond2
            exfalso
            rw [hstored, hpe] at hcond2
            exact hcond2 rfl
          · exact ht

theorem checkParts_ok_of {s : Sys} {base : Path} (ps : List (Nat × String))
    (dss : List Bytes) (hpa : PartsAre s base ps dss)
    (hsz : ∀ j, j < dss.length - 1 → (dss.getD j []).length = (dss.getD 0 []).length) :
    ∃ t, checkPartsAux s base (ps.length - 1) 0 0 0 ps = .ok t := by
  cases ps with
  | nil => exact ⟨0, rfl⟩
  | cons pe ps =>
    obtain ⟨pn, petag⟩ := pe
    cases dss with
    | nil => exact absurd hpa (by simp [PartsAre])
    | cons d dss =>
      obtain ⟨hnd, hstored, hpe, hrest⟩ := hpa
      have hlen : ps.length = dss.length := PartsAre_length hrest
      have hszrest : ∀ j, j < ps.length → 1 + j < ((pn, petag) :: ps).length - 1 →
          ((dss.getD j []).length : Int) = nodeSize (.file d) := by
        intro j hj hlast
        have hj1 : j + 1 < (d :: dss).length - 1 := by
          simp only [List.length_cons] at hlast ⊢
          omega
        have h3 := hsz (j + 1) hj1
        simp only [List.getD_cons_succ, List.getD_cons_zero] at h3
        show ((dss.getD j []).length : Int) = ((d.length : Nat) : Int)
        exact_mod_cast h3
      obtain ⟨t, ht⟩ := @checkPartsAux_ok_of_high s base ps dss
        (((pn, petag) :: ps).length - 1) 1 (nodeSize (.file d)) (0 + nodeSize (.file d))
        (by omega) hrest hszrest
      refine ⟨t, ?_⟩
      simp only [checkPartsAux, hnd]
      split
      · split
        · rename_i hcond
          exfalso
          obtain ⟨_, hne⟩ := hcond
          exact hne rfl
        · split
          · rename_i hcond2
            exfalso
            rw [hstored, hpe] at hcond2
            exact hcond2 rfl
          · exact ht
      · rename_i hzero
        exact absurd trivial hzero

theorem readParts_ok_of {s : Sys} {base : Path} :
    ∀ (ps : List (Nat × String)) (dss : List Bytes), PartsAre s base ps dss →
      readParts s base ps = .ok dss.flatten := by
  intro ps
  induction ps with
  | nil =>
    intro dss h
    cases dss with
    | nil => rfl
    | cons d t => exact absurd h (by simp [PartsAre])
  | cons pe ps ih =>
    intro dss h
    obtain ⟨pn, petag⟩ := pe
    cases dss with
    | nil => exact absurd h (by simp [PartsAre])
    | cons d dss =>
      obtain ⟨hnd, _, _, hrest⟩ := h
      simp only [readParts, hnd, ih dss hrest, List.flatten_cons]

theorem partsEtagDecode {s : Sys} {base : Path} :
    ∀ (ps : List (Nat × String)) (dss : List Bytes), PartsAre s base ps dss →
      ps.map (fun pe => hexDecode pe.2) = dss.map md5Bytes := by
  intro ps
  induction ps with
  | nil =>
    intro dss h
    cases dss with
    | nil => rfl
    | cons d t => exact absurd h (by simp [PartsAre])
  | cons pe ps ih =>
    intro dss h
    obtain ⟨pn, petag⟩ := pe
    cases dss with
    | nil => exact absurd h (by simp [PartsAre])
    | cons d dss =>
      obtain ⟨_, _, hpe, hrest⟩ := h
      simp only [List.map_cons, ih dss hrest, hpe, hexDecode_md5Hex]

theorem completeStoreMeta_ok {s : Sys} {p : Path} {n : Node}
    (md : List (String × String)) (hp : getNode s p = some n) :
    ∃ s', completeStoreMeta s p md = (s', .ok ()) ∧ s'.fs = s.fs := by
  induction md generalizing s with
  | nil => exact ⟨s, rfl, rfl⟩
  | cons kv rest ih =>
    obtain ⟨k, v⟩ := kv
    have hstore := StoreAttribute_ok hp k (.raw (strBytes v))
    have hp1 : getNode (⟨s.fs, assocSet s.attrs (p, k) (.raw (strBytes v))⟩ : Sys) p =
        some n := hp
    obtain ⟨s', hrun, hfs⟩ := ih hp1
    exact ⟨s', by simp only [completeStoreMeta, hstore, hrun], hfs⟩

theorem osRemove_ok_state {s s' : Sys} {p : Path} (h : osRemove s p = .ok s') :
    s' = removeNode s p := by
  cases hg : getNode s p with
  | none =>
    simp only [osRemove, hg] at h
    cases h
  | some nd =>
    cases nd with
    | file d =>
      simp only [osRemove, hg] at h
      cases h
      rfl
    | dir =>
      simp only [osRemove, hg] at h
      by_cases hc : hasChild s p
      · rw [if_pos hc] at h
        cases h
      · rw [if_neg hc] at h
        cases h
        rfl

/-- The effect of the post-link tail of `CompleteMultipartUpload`: the
composite etag is returned, the destination holds the assembled bytes, and
the destination's etag attribute holds the composite etag. -/
theorem completeLinkTail_spec (s2 : Sys) (bucket key uploadID : String)
    (parts : List (Nat × String)) (data : Bytes) (um : List (String × String))
    (hbne : bucket ≠ metaTmpDir)
    (hkeyhead : ∀ rest, keyPath key ≠ metaTmpDir :: rest) :
    (completeLinkTail s2 bucket key uploadID parts data um).2 =
        .ok (GetMultipartMD5 parts) ∧
    getNode (completeLinkTail s2 bucket key uploadID parts data um).1
        (objPath bucket key) = some (.file data) ∧
    assocGet (completeLinkTail s2 bucket key uploadID parts data um).1.attrs
        (objPath bucket key, etagkey) =
      some (.raw (strBytes (GetMultipartMD5 parts))) := by
  have hpref : ¬ (objdirRel key ++ [uploadID]) <+: objPath bucket key := by
    rintro ⟨r, heq⟩
    rw [objdirRel] at heq
    simp only [objPath, List.cons_append, List.append_assoc, List.nil_append] at heq
    injection heq with h1 _
    exact hbne h1.symm
  have hne2 : objPath bucket key ≠ bucket :: objdirRel key := by
    intro h
    simp only [objPath] at h
    injection h with _ h2
    rw [objdirRel] at h2
    exact hkeyhead _ h2
  have hs3dest : getNode (setNode s2 (objPath bucket key) (.file data))
      (objPath bucket key) = some (.file data) := by
    rw [getNode_setNode, if_pos rfl]
  obtain ⟨s4, hmeta, hfs4⟩ := completeStoreMeta_ok um hs3dest
  have hs4dest : getNode s4 (objPath bucket key) = some (.file data) := by
    rw [getNode, hfs4]
    exact hs3dest
  have hstore := StoreAttribute_ok hs4dest etagkey (.raw (strBytes (GetMultipartMD5 parts)))
  have hbody : completeLinkTail s2 bucket key uploadID parts data um =
      (match osRemove (dropTree ⟨s4.fs, assocSet s4.attrs (objPath bucket key, etagkey)
            (.raw (strBytes (GetMultipartMD5 parts)))⟩ (objdirRel key ++ [uploadID]))
          (bucket :: objdirRel key) with
        | .ok s' => s'
        | .error _ => dropTree ⟨s4.fs, assocSet s4.attrs (objPath bucket key, etagkey)
            (.raw (strBytes (GetMultipartMD5 parts)))⟩ (objdirRel key ++ [uploadID]),
       .ok (GetMultipartMD5 parts)) := by
    simp only [completeLinkTail, hmeta, hstore]
  set s5 : Sys := ⟨s4.fs, assocSet s4.attrs (objPath bucket key, etagkey)
      (.raw (strBytes (GetMultipartMD5 parts)))⟩ with hs5
  have hs6dest : getNode (dropTree s5 (objdirRel key ++ [uploadID])) (objPath bucket key) =
      some (.file data) := by
    rw [getNode_dropTree hpref]
    exact hs4dest
  have hs6attr : assocGet (dropTree s5 (objdirRel key ++ [uploadID])).attrs
      (objPath bucket key, etagkey) =
      some (.raw (strBytes (GetMultipartMD5 parts))) := by
    rw [attrs_dropTree hpref]
    exact assocGet_set_self _ _ _
  rw [hbody]
  cases hrem : osRemove (dropTree s5 (objdirRel key ++ [uploadID]))
      (bucket :: objdirRel key) with
  | ok s' =>
    have hs' := osRemove_ok_state hrem
    subst hs'
    refine ⟨rfl, ?_, ?_⟩
    · rw [getNode_removeNode hne2]
      exact hs6dest
    · rw [attrs_removeNode hne2]
      exact hs6attr
  | error e =>
    exact ⟨rfl, hs6dest, hs6attr⟩

/-- Claim C3: a successful CompleteMultipartUpload of parts with contents
`ds` (each stored and supplied etag being the part's hex MD5, all parts
except the last sharing the first part's size) returns and stores the
composite etag `hex(MD5(concat(MD5_bytes(p_i)))) ++ "-" ++ n`, and
publishes the concatenation of the parts in the supplied order at the
destination key. -/
theorem claim_C3 (s : Sys) (bucket key uploadID : String)
    (parts : List (Nat × String)) (ds : List Bytes)
    (hbdir : getNode s [bucket] = some .dir)
    (htmp : getNode s [bucket, metaTmpDir] = some .dir)
    (hup : (getNode s (bucket :: objdirRel key ++ [uploadID])).isSome)
    (hpa : PartsAre s (bucket :: objdirRel key ++ [uploadID]) parts ds)
    (hsz : ∀ j, j < ds.length - 1 → (ds.getD j []).length = (ds.getD 0 []).length)
    (hbne : bucket ≠ metaTmpDir)
    (hkeyhead : ∀ rest, keyPath key ≠ metaTmpDir :: rest)
    (hmk : ∃ s2, mkdirAll s (objPath bucket key).dropLast = .ok s2)
    (hnotdir : getNode s (objPath bucket key) ≠ some .dir) :
    (CompleteMultipartUpload s bucket key uploadID parts).2 =
        .ok (GetMultipartMD5 parts) ∧
    GetMultipartMD5 parts =
        bytesToHex (md5Bytes (ds.map md5Bytes).flatten) ++ "-" ++ toString ds.length ∧
    getNode (CompleteMultipartUpload s bucket key uploadID parts).1
        (objPath bucket key) = some (.file ds.flatten) ∧
    assocGet (CompleteMultipartUpload s bucket key uploadID parts).1.attrs
        (objPath bucket key, etagkey) =
      some (.raw (strBytes (GetMultipartMD5 parts))) := by
  obtain ⟨un, hun⟩ := Option.isSome_iff_exists.mp hup
  obtain ⟨t, hcp⟩ := checkParts_ok_of parts ds hpa hsz
  have htmpmk : mkdirAll s [bucket, metaTmpDir] = .ok s := mkdirAll_pair_exists hbdir htmp
  have hread := readParts_ok_of parts ds hpa
  obtain ⟨s2, hmk2⟩ := hmk
  have hform : GetMultipartMD5 parts =
      bytesToHex (md5Bytes (ds.map md5Bytes).flatten) ++ "-" ++ toString ds.length := by
    rw [GetMultipartMD5, partsEtagDecode parts ds hpa, PartsAre_length hpa]
  have hnp : ¬ (objPath bucket key) <+: (objPath bucket key).dropLast := by
    intro hp
    have hle := hp.length_le
    rw [List.length_dropLast] at hle
    have hlen : (objPath bucket key).length = (keyPath key).length + 1 := by
      simp [objPath]
    omega
  have hs2dest : getNode s2 (objPath bucket key) = getNode s (objPath bucket key) :=
    mkdirAll_outside hmk2 _ hnp
  have htail := completeLinkTail_spec s2 bucket key uploadID parts ds.flatten
    (loadUserMetaData s (bucket :: objdirRel key)) hbne hkeyhead
  have hres : CompleteMultipartUpload s bucket key uploadID parts =
      completeLinkTail s2 bucket key uploadID parts ds.flatten
        (loadUserMetaData s (bucket :: objdirRel key)) := by
    simp only [CompleteMultipartUpload, hbdir, hun, hcp, htmpmk, hread, hmk2]
    rw [hs2dest]
    cases hgd : getNode s (objPath bucket key) with
    | none => rfl
    | some nd =>
      cases nd with
      | dir => exact absurd hgd hnotdir
      | file d => rfl
  rw [hres]
  exact ⟨htail.1, hform, htail.2.1, htail.2.2⟩

def c3Base : Path := "b" :: objdirRel "k" ++ ["u1"]

def c3Sys : Sys :=
  { fs := [(["b"], .dir), (["b", metaTmpDir], .dir),
           (["b", metaTmpDir, "multipart"], .dir),
           ("b" :: objdirRel "k", .dir), (c3Base, .dir),
           (c3Base ++ ["1"], .file [97, 97]), (c3Base ++ ["2"], .file [98])],
    attrs := [((c3Base ++ ["1"], etagkey), .raw (strBytes (md5Hex [97, 97]))),
              ((c3Base ++ ["2"], etagkey), .raw (strBytes (md5Hex [98])))] }

def c3Parts : List (Nat × String) := [(1, md5Hex [97, 97]), (2, md5Hex [98])]

theorem claim_C3_witness :
    (CompleteMultipartUpload c3Sys "b" "k" "u1" c3Parts).2 =
        .ok (GetMultipartMD5 c3Parts) ∧
    getNode (CompleteMultipartUpload c3Sys "b" "k" "u1" c3Parts).1
        (objPath "b" "k") = some (.file ([[97, 97], [98]] : List Bytes).flatten) := by
  have h := claim_C3 c3Sys "b" "k" "u1" c3Parts [[97, 97], [98]]
    (by decide) (by decide) (by decide)
    ⟨by decide, by decide, rfl, by decide, by decide, rfl, trivial⟩
    (fun j hj => by
      have hj0 : j = 0 := by
        simp only [List.length_cons, List.length_nil] at hj
        omega
      subst hj0
      rfl)
    (by decide)
    (fun rest hres => by injection hres with h1 _; exact absurd h1 (by decide))
    ⟨c3Sys, by decide⟩
    (by decide)
  exact ⟨h.1, h.2.2.1⟩

/-! ## Claim C2: PutObject/GetObject round trip

Inversion lemmas for the steps of a successful `PutObject` of a file
object, characterising the final state. -/

theorem storeUserMeta_inv {p : Path} :
    ∀ (md : List (String × String)) {s s4 : Sys},
      storeUserMeta s p md = (s4, .ok ()) →
      s4.fs = s.fs ∧
      ∀ q kk, (∀ k' : String, kk ≠ metaHdr ++ "." ++ k') →
        assocGet s4.attrs (q, kk) = assocGet s.attrs (q, kk) := by
  intro md
  induction md with
  | nil =>
    intro s s4 h
    cases h
    exact ⟨rfl, fun q kk _ => rfl⟩
  | cons kv rest ih =>
    intro s s4 h
    obtain ⟨k, v⟩ := kv
    simp only [storeUserMeta] at h
    cases hg : getNode s p with
    | none =>
      simp only [show StoreAttribute s p (metaHdr ++ "." ++ k) (.raw (strBytes v)) =
          .error .notExist by simp only [StoreAttribute, hg]] at h
      simp at h
    | some n =>
      simp only [StoreAttribute_ok hg _ _] at h
      obtain ⟨hfs, hpres⟩ := ih h
      refine ⟨hfs, fun q kk hkk => ?_⟩
      rw [hpres q kk hkk]
      show assocGet (assocSet s.attrs (p, metaHdr ++ "." ++ k) (.raw (strBytes v)))
        (q, kk) = assocGet s.attrs (q, kk)
      exact assocGet_set_ne _ _ _ _
        (fun hc => hkk k (congrArg Prod.snd hc))

theorem PutObjectTagging_some_inv {s s' : Sys} {bucket object : String}
    {ts : List (String × String)}
    (h : PutObjectTagging s bucket object (some ts) = (s', .ok ())) :
    s' = ⟨s.fs, assocSet s.attrs (objPath bucket object, tagHdr) (.tags ts)⟩ := by
  simp only [PutObjectTagging] at h
  cases hb : getNode s [bucket] with
  | none =>
    simp only [hb] at h
    simp at h
  | some bn =>
    simp only [hb] at h
    cases hg : getNode s (objPath bucket object) with
    | none =>
      simp only [show StoreAttribute s (objPath bucket object) tagHdr (.tags ts) =
          .error .notExist by simp only [StoreAttribute, hg]] at h
      simp at h
    | some n =>
      simp only [StoreAttribute_ok hg _ _] at h
      simp only [Prod.mk.injEq] at h
      exact h.1.symm

theorem PutObjectLegalHold_inv {s s' : Sys} {bucket key : String} {st : Bool}
    (h : PutObjectLegalHold s bucket key st = (s', .ok ())) :
    ∃ v, s' = ⟨s.fs, assocSet s.attrs (objPath bucket key, objectLegalHoldKey) v⟩ := by
  simp only [PutObjectLegalHold] at h
  cases hb : getNode s [bucket] with
  | none =>
    simp only [hb] at h
    simp at h
  | some bn =>
    simp only [hb] at h
    cases hr : RetrieveAttribute s [bucket] bucketLockKey with
    | error me =>
      cases me <;> simp only [hr] at h <;> simp at h
    | ok cfg =>
      simp only [hr] at h
      cases hdec : decodeLock cfg with
      | none =>
        simp only [hdec] at h
        simp at h
      | some enabled =>
        simp only [hdec] at h
        cases enabled with
        | false => simp at h
        | true =>
          simp only [Bool.not_true, Bool.false_eq_true, if_false] at h
          cases hg : getNode s (objPath bucket key) with
          | none =>
            simp only [show StoreAttribute s (objPath bucket key) objectLegalHoldKey
                (.raw (if st then [1] else [0])) = .error .notExist by
              simp only [StoreAttribute, hg]] at h
            simp at h
          | some n =>
            simp only [StoreAttribute_ok hg _ _] at h
            simp only [Prod.mk.injEq] at h
            exact ⟨_, h.1.symm⟩

theorem PutObjectRetention_inv {s s' : Sys} {bucket key : String} {ret : Bytes}
    (h : PutObjectRetention s bucket key ret = (s', .ok ())) :
    ∃ v, s' = ⟨s.fs, assocSet s.attrs (objPath bucket key, objectRetentionKey) v⟩ := by
  simp only [PutObjectRetention] at h
  cases hb : getNode s [bucket] with
  | none =>
    simp only [hb] at h
    simp at h
  | some bn =>
    simp only [hb] at h
    cases hr : RetrieveAttribute s [bucket] bucketLockKey with
    | error me =>
      cases me <;> simp only [hr] at h <;> simp at h
    | ok cfg =>
      simp only [hr] at h
      cases hdec : decodeLock cfg with
      | none =>
        simp only [hdec] at h
        simp at h
      | some enabled =>
        simp only [hdec] at h
        cases enabled with
        | false => simp at h
        | true =>
          simp only [Bool.not_true, Bool.false_eq_true, if_false] at h
          cases hg : getNode s (objPath bucket key) with
          | none =>
            simp only [show StoreAttribute s (objPath bucket key) objectRetentionKey
                (.raw ret) = .error .notExist by simp only [StoreAttribute, hg]] at h
            simp at h
          | some n =>
            simp only [StoreAttribute_ok hg _ _] at h
            simp only [Prod.mk.injEq] at h
            exact ⟨_, h.1.symm⟩

theorem putObjectLockSteps_inv {s s' : Sys} {po : PutObjectInput}
    (h : putObjectLockSteps s po = (s', .ok ())) :
    s'.fs = s.fs ∧
    ∀ q kk, kk ≠ objectLegalHoldKey → kk ≠ objectRetentionKey →
      assocGet s'.attrs (q, kk) = assocGet s.attrs (q, kk) := by
  have hret : ∀ {s0 : Sys},
      (match po.retention with
        | none => (s0, Except.ok ())
        | some ret => PutObjectRetention s0 po.bucket po.key ret) = (s', .ok ()) →
      s'.fs = s0.fs ∧
      ∀ q kk, kk ≠ objectRetentionKey →
        assocGet s'.attrs (q, kk) = assocGet s0.attrs (q, kk) := by
    intro s0 hm
    cases hretv : po.retention with
    | none =>
      simp only [hretv] at hm
      cases hm
      exact ⟨rfl, fun q kk _ => rfl⟩
    | some ret =>
      simp only [hretv] at hm
      obtain ⟨v, hv⟩ := PutObjectRetention_inv hm
      subst hv
      exact ⟨rfl, fun q kk hkk =>
        assocGet_set_ne _ _ _ _ (fun hc => hkk (congrArg Prod.snd hc))⟩
  simp only [putObjectLockSteps] at h
  cases hlh : po.legalHold with
  | false =>
    simp only [hlh] at h
    simp only [Bool.false_eq_true, if_false] at h
    obtain ⟨hfs, hpres⟩ := hret h
    exact ⟨hfs, fun q kk _ hk2 => hpres q kk hk2⟩
  | true =>
    simp only [hlh] at h
    simp only [if_true] at h
    cases hplh : PutObjectLegalHold s po.bucket po.key true with
    | mk s1 r =>
      simp only [hplh] at h
      cases r with
      | error e => simp at h
      | ok u =>
        obtain ⟨v, hv⟩ := PutObjectLegalHold_inv hplh
        obtain ⟨hfs, hpres⟩ := hret h
        subst hv
        refine ⟨hfs, fun q kk hk1 hk2 => ?_⟩
        rw [hpres q kk hk2]
        exact assocGet_set_ne _ _ _ _ (fun hc => hk1 (congrArg Prod.snd hc))

theorem putObjectFinish_ok {s5 s' : Sys} {po : PutObjectInput} {etag e' : String}
    (h : putObjectFinish s5 po etag = (s', .ok e')) :
    e' = etag ∧ s'.fs = s5.fs ∧
    assocGet s'.attrs (objPath po.bucket po.key, etagkey) =
      some (.raw (strBytes etag)) ∧
    ∀ q kk, kk ≠ objectLegalHoldKey → kk ≠ objectRetentionKey → kk ≠ etagkey →
      assocGet s'.attrs (q, kk) = assocGet s5.attrs (q, kk) := by
  simp only [putObjectFinish] at h
  cases hls : putObjectLockSteps s5 po with
  | mk s6 r6 =>
    simp only [hls] at h
    cases r6 with
    | error e => simp at h
    | ok u6 =>
      cases u6
      obtain ⟨hfs6, hpres6⟩ := putObjectLockSteps_inv hls
      cases hg6 : getNode s6 (objPath po.bucket po.key) with
      | none =>
        simp only [show StoreAttribute s6 (objPath po.bucket po.key) etagkey
            (.raw (strBytes etag)) = .error .notExist by
          simp only [StoreAttribute, hg6]] at h
        simp at h
      | some n6 =>
        simp only [StoreAttribute_ok hg6 _ _] at h
        simp only [Prod.mk.injEq, Except.ok.injEq] at h
        obtain ⟨hs', he'⟩ := h
        subst hs'
        refine ⟨he'.symm, hfs6, assocGet_set_self _ _ _, ?_⟩
        intro q kk hk1 hk2 hk3
        show assocGet (assocSet s6.attrs (objPath po.bucket po.key, etagkey)
          (.raw (strBytes etag))) (q, kk) = _
        rw [assocGet_set_ne _ _ _ _ (fun hc => hk3 (congrArg Prod.snd hc))]
        exact hpres6 q kk hk1 hk2

theorem putObjectTail_ok {s3 s' : Sys} {po : PutObjectInput}
    {tagsOpt : Option (List (String × String))} {etag e' : String}
    (h : putObjectTail s3 po tagsOpt etag = (s', .ok e')) :
    e' = etag ∧ s'.fs = s3.fs ∧
    assocGet s'.attrs (objPath po.bucket po.key, etagkey) =
      some (.raw (strBytes etag)) ∧
    (tagsOpt = none →
      assocGet s'.attrs (objPath po.bucket po.key, tagHdr) =
        assocGet s3.attrs (objPath po.bucket po.key, tagHdr)) ∧
    (∀ ts, tagsOpt = some ts →
      assocGet s'.attrs (objPath po.bucket po.key, tagHdr) = some (.tags ts)) := by
  have hth : tagHdr ≠ objectLegalHoldKey := by decide
  have hth2 : tagHdr ≠ objectRetentionKey := by decide
  have hth3 : tagHdr ≠ etagkey := by decide
  simp only [putObjectTail] at h
  cases hsm : storeUserMeta s3 (objPath po.bucket po.key) po.metadata with
  | mk s4 r4 =>
    simp only [hsm] at h
    cases r4 with
    | error e => simp at h
    | ok u4 =>
      cases u4
      obtain ⟨hfs4, hpres4⟩ := storeUserMeta_inv _ hsm
      cases htopt : tagsOpt with
      | none =>
        simp only [htopt] at h
        obtain ⟨he', hfs, hetag, hpres⟩ := putObjectFinish_ok h
        refine ⟨he', hfs.trans hfs4, hetag, ?_, ?_⟩
        · intro _
          rw [hpres _ _ hth hth2 hth3]
          exact hpres4 _ _ (fun k' => Ne.symm (metaKey_ne_tagHdr k'))
        · intro ts hts
          cases hts
      | some ts =>
        simp only [htopt] at h
        cases hpt : PutObjectTagging s4 po.bucket po.key (some ts) with
        | mk s5 r5 =>
          simp only [hpt] at h
          cases r5 with
          | error e => simp at h
          | ok u5 =>
            cases u5
            have hs5 := PutObjectTagging_some_inv hpt
            subst hs5
            obtain ⟨he', hfs, hetag, hpres⟩ := putObjectFinish_ok h
            refine ⟨he', hfs.trans hfs4, hetag, ?_, ?_⟩
            · intro hn
              cases hn
            · intro ts' hts'
              have htse : ts = ts' := by injection hts'
              subst htse
              rw [hpres _ _ hth hth2 hth3]
              exact assocGet_set_self _ _ _

/-- A successful `PutObject` of a non-directory key went through the file
branch: its result is `putObjectTail` applied to the state after the link,
where the preceding `mkdirAll`s changed no attributes and kept the bucket
node. -/
theorem PutObject_ok_shape {s : Sys} {po : PutObjectInput} {etag : String}
    (hslash : endsWithSlash po.key = false)
    (hput : (PutObject s po).2 = .ok etag) :
    ∃ s2 tagsOpt,
      PutObject s po = putObjectTail
        (setNode s2 (objPath po.bucket po.key) (.file po.body)) po tagsOpt
        (md5Hex po.body) ∧
      s2.attrs = s.attrs ∧
      (getNode s2 [po.bucket]).isSome := by
  simp only [PutObject, hslash, Bool.false_eq_true, if_false] at hput ⊢
  cases hb : getNode s [po.bucket] with
  | none =>
    simp only [hb] at hput
    cases hput
  | some bn =>
    simp only [hb] at hput ⊢
    by_cases ht : po.tagging.getD "" = ""
    · simp only [ht, if_pos rfl] at hput ⊢
      cases hgn : getNode s (objPath po.bucket po.key) with
      | some nd =>
        cases nd with
        | dir =>
          simp only [hgn] at hput
          cases hput
        | file d0 =>
          simp only [hgn] at hput ⊢
          cases hm1 : mkdirAll s [po.bucket, metaTmpDir] with
          | error e =>
            simp only [hm1] at hput
            cases hput
          | ok s1 =>
            simp only [hm1] at hput ⊢
            cases hm2 : mkdirAll s1 (objPath po.bucket po.key).dropLast with
            | error e =>
              simp only [hm2] at hput
              cases hput
            | ok s2 =>
              simp only [hm2] at hput ⊢
              cases hgn2 : getNode s2 (objPath po.bucket po.key) with
              | some nd2 =>
                cases nd2 with
                | dir =>
                  simp only [hgn2] at hput
                  cases hput
                | file d2 =>
                  simp only [hgn2]
                  refine ⟨s2, none, rfl, ?_, ?_⟩
                  · rw [mkdirAll_attrs hm2, mkdirAll_attrs hm1]
                  · rw [mkdirAll_preserves hm2 _ bn (mkdirAll_preserves hm1 _ bn hb)]
                    rfl
              | none =>
                simp only [hgn2]
                refine ⟨s2, none, rfl, ?_, ?_⟩
                · rw [mkdirAll_attrs hm2, mkdirAll_attrs hm1]
                · rw [mkdirAll_preserves hm2 _ bn (mkdirAll_preserves hm1 _ bn hb)]
                  rfl
      | none =>
        simp only [hgn] at hput ⊢
        cases hm1 : mkdirAll s [po.bucket, metaTmpDir] with
        | error e =>
          simp only [hm1] at hput
          cases hput
        | ok s1 =>
          simp only [hm1] at hput ⊢
          cases hm2 : mkdirAll s1 (objPath po.bucket po.key).dropLast with
          | error e =>
            simp only [hm2] at hput
            cases hput
          | ok s2 =>
            simp only [hm2] at hput ⊢
            cases hgn2 : getNode s2 (objPath po.bucket po.key) with
            | some nd2 =>
              cases nd2 with
              | dir =>
                simp only [hgn2] at hput
                cases hput
              | file d2 =>
                simp only [hgn2]
                refine ⟨s2, none, rfl, ?_, ?_⟩
                · rw [mkdirAll_attrs hm2, mkdirAll_attrs hm1]
                · rw [mkdirAll_preserves hm2 _ bn (mkdirAll_preserves hm1 _ bn hb)]
                  rfl
            | none =>
              simp only [hgn2]
              refine ⟨s2, none, rfl, ?_, ?_⟩
              · rw [mkdirAll_attrs hm2, mkdirAll_attrs hm1]
              · rw [mkdirAll_preserves hm2 _ bn (mkdirAll_preserves hm1 _ bn hb)]
                rfl
    · simp only [ht, if_neg ht] at hput ⊢
      cases hpt : parseTags (po.tagging.getD "") with
      | none =>
        simp only [hpt] at hput
        cases hput
      | some ts =>
        simp only [hpt] at hput ⊢
        cases hgn : getNode s (objPath po.bucket po.key) with
        | some nd =>
          cases nd with
          | dir =>
            simp only [hgn] at hput
            cases hput
          | file d0 =>
            simp only [hgn] at hput ⊢
            cases hm1 : mkdirAll s [po.bucket, metaTmpDir] with
            | error e =>
              simp only [hm1] at hput
              cases hput
            | ok s1 =>
              simp only [hm1] at hput ⊢
              cases hm2 : mkdirAll s1 (objPath po.bucket po.key).dropLast with
              | error e =>
                simp only [hm2] at hput
                cases hput
              | ok s2 =>
                simp only [hm2] at hput ⊢
                cases hgn2 : getNode s2 (objPath po.bucket po.key) with
                | some nd2 =>
                  cases nd2 with
                  | dir =>
                    simp only [hgn2] at hput
                    cases hput
                  | file d2 =>
                    simp only [hgn2]
                    refine ⟨s2, some ts, rfl, ?_, ?_⟩
                    · rw [mkdirAll_attrs hm2, mkdirAll_attrs hm1]
                    · rw [mkdirAll_preserves hm2 _ bn (mkdirAll_preserves hm1 _ bn hb)]
                      rfl
                | none =>
                  simp only [hgn2]
                  refine ⟨s2, some ts, rfl, ?_, ?_⟩
                  · rw [mkdirAll_attrs hm2, mkdirAll_attrs hm1]
                  · rw [mkdirAll_preserves hm2 _ bn (mkdirAll_preserves hm1 _ bn hb)]
                    rfl
        | none =>
          simp only [hgn] at hput ⊢
          cases hm1 : mkdirAll s [po.bucket, metaTmpDir] with
          | error e =>
            simp only [hm1] at hput
            cases hput
          | ok s1 =>
            simp only [hm1] at hput ⊢
            cases hm2 : mkdirAll s1 (objPath po.bucket po.key).dropLast with
            | error e =>
              simp only [hm2] at hput
              cases hput
            | ok s2 =>
              simp only [hm2] at hput ⊢
              cases hgn2 : getNode s2 (objPath po.bucket po.key) with
              | some nd2 =>
                cases nd2 with
                | dir =>
                  simp only [hgn2] at hput
                  cases hput
                | file d2 =>
                  simp only [hgn2]
                  refine ⟨s2, some ts, rfl, ?_, ?_⟩
                  · rw [mkdirAll_attrs hm2, mkdirAll_attrs hm1]
                  · rw [mkdirAll_preserves hm2 _ bn (mkdirAll_preserves hm1 _ bn hb)]
                    rfl
              | none =>
                simp only [hgn2]
                refine ⟨s2, some ts, rfl, ?_, ?_⟩
                · rw [mkdirAll_attrs hm2, mkdirAll_attrs hm1]
                · rw [mkdirAll_preserves hm2 _ bn (mkdirAll_preserves hm1 _ bn hb)]
                  rfl

/-- A whole-object `GetObject` with range "bytes=0-" on a regular-file
object writes exactly the file's content and reports the stored etag. -/
theorem GetObject_whole (s : Sys) (bucket key : String) (d : Bytes)
    (hb : (getNode s [bucket]).isSome)
    (hd : getNode s (objPath bucket key) = some (.file d))
    (htag : ∀ v, assocGet s.attrs (objPath bucket key, tagHdr) = some v →
      ∃ ts, v = .tags ts) :
    ∃ out, GetObject s bucket key "bytes=0-" = .ok (out, d) ∧
      out.etag = (match RetrieveAttribute s (objPath bucket key) etagkey with
        | .ok v => attrStr v
        | .error _ => "") := by
  obtain ⟨bn, hbn⟩ := Option.isSome_iff_exists.mp hb
  have htags' : ∃ tc, (match getAttrTags s (objPath bucket key) with
      | .ok ts => (Except.ok (some ts.length) : Except Err (Option Nat))
      | .error (.api .BucketTaggingNotFound) => .ok none
      | .error e => .error e) = .ok tc := by
    simp only [getAttrTags, RetrieveAttribute, hd]
    cases hattr : assocGet s.attrs (objPath bucket key, tagHdr) with
    | none => exact ⟨none, rfl⟩
    | some v =>
      obtain ⟨ts, hts⟩ := htag v hattr
      subst hts
      exact ⟨some ts.length, rfl⟩
  obtain ⟨tc, htc⟩ := htags'
  have hr : ParseRange "bytes=0-" = .ok (0, -1) := by decide
  simp only [GetObject, hbn, hd, hr, if_pos rfl, if_true]
  have hcond : ¬ ((0 : Int) + ((d.length : Int) - 0 + 1) > (d.length : Int) + 1) := by
    omega
  have hw : (d.drop (Int.toNat 0)).take ((d.length : Int) - 0 + 1).toNat = d := by
    simp only [Int.toNat_zero, List.drop_zero]
    have h1 : ((d.length : Int) - 0 + 1).toNat = d.length + 1 := by omega
    rw [h1]
    exact List.take_of_length_le (by omega)
  rw [if_neg hcond, htc, hw]
  exact ⟨_, rfl, rfl⟩

/-- Claim C2: for every successful PutObject of a key not ending in "/"
with body `b`, the returned etag is the lower-case hex MD5 of `b`, that
value is stored as the object's etag attribute, and a subsequent GetObject
of the same bucket and key (whole-object range) writes exactly `b` and
returns the same etag. -/
theorem claim_C2 (s : Sys) (po : PutObjectInput) (etag : String)
    (hslash : endsWithSlash po.key = false)
    (hclean : ∀ v, assocGet s.attrs (objPath po.bucket po.key, tagHdr) = some v →
      ∃ ts, v = .tags ts)
    (hput : (PutObject s po).2 = .ok etag) :
    etag = md5Hex po.body ∧
    assocGet (PutObject s po).1.attrs (objPath po.bucket po.key, etagkey) =
      some (.raw (strBytes (md5Hex po.body))) ∧
    ∃ out, GetObject (PutObject s po).1 po.bucket po.key "bytes=0-" =
        .ok (out, po.body) ∧ out.etag = md5Hex po.body := by
  obtain ⟨s2, tagsOpt, hshape, hattrs2, hb2⟩ := PutObject_ok_shape hslash hput
  rw [hshape] at hput ⊢
  cases hpt : putObjectTail (setNode s2 (objPath po.bucket po.key) (.file po.body)) po
      tagsOpt (md5Hex po.body) with
  | mk s7 r =>
    rw [hpt] at hput
    have hr : r = .ok etag := hput
    subst hr
    obtain ⟨he, hfs, hetag, hnone, hsome⟩ := putObjectTail_ok hpt
    have hs7b : (getNode s7 [po.bucket]).isSome := by
      rw [getNode, hfs]
      show (getNode (setNode s2 (objPath po.bucket po.key) (.file po.body))
        [po.bucket]).isSome
      rw [getNode_setNode]
      split
      · rfl
      · exact hb2
    have hs7d : getNode s7 (objPath po.bucket po.key) = some (.file po.body) := by
      rw [getNode, hfs]
      show getNode (setNode s2 (objPath po.bucket po.key) (.file po.body))
        (objPath po.bucket po.key) = _
      rw [getNode_setNode, if_pos rfl]
    have hetag' : assocGet s7.attrs (objPath po.bucket po.key, etagkey) =
        some (.raw (strBytes (md5Hex po.body))) := by
      rw [← he]
      exact he ▸ hetag
    have htag7 : ∀ v, assocGet s7.attrs (objPath po.bucket po.key, tagHdr) = some v →
        ∃ ts, v = .tags ts := by
      intro v hv
      cases htopt : tagsOpt with
      | none =>
        rw [hnone htopt] at hv
        have hv' : assocGet s.attrs (objPath po.bucket po.key, tagHdr) = some v := by
          rw [← hattrs2]
          exact hv
        exact hclean v hv'
      | some ts =>
        rw [hsome ts htopt] at hv
        exact ⟨ts, by injection hv with hv'; exact hv'.symm⟩
    obtain ⟨out, hget, hoetag⟩ := GetObject_whole s7 po.bucket po.key po.body hs7b hs7d htag7
    refine ⟨he, he ▸ hetag, out, hget, ?_⟩
    rw [hoetag]
    have hra : RetrieveAttribute s7 (objPath po.bucket po.key) etagkey =
        .ok (.raw (strBytes (md5Hex po.body))) := by
      simp only [RetrieveAttribute, hs7d, hetag']
    rw [hra]
    exact bytesToStr_strBytes _

def c2Sys : Sys := { fs := [(["b"], .dir)], attrs := [] }

def c2Po : PutObjectInput :=
  { bucket := "b", key := "k", contentLength := 5, body := strBytes "hello",
    tagging := none, metadata := [], legalHold := false, retention := none }

/-- Witness for claim C2: putting "hello" into b/k succeeds with the MD5
hex etag, which is stored and returned again by a whole-object GetObject
that writes back "hello". -/
theorem claim_C2_witness :
    endsWithSlash c2Po.key = false ∧
    (∀ v, assocGet c2Sys.attrs (objPath c2Po.bucket c2Po.key, tagHdr) = some v →
      ∃ ts, v = AttrVal.tags ts) ∧
    (PutObject c2Sys c2Po).2 = Except.ok (md5Hex c2Po.body) ∧
    (md5Hex c2Po.body = md5Hex c2Po.body ∧
     assocGet (PutObject c2Sys c2Po).1.attrs (objPath c2Po.bucket c2Po.key, etagkey) =
       some (AttrVal.raw (strBytes (md5Hex c2Po.body))) ∧
     ∃ out, GetObject (PutObject c2Sys c2Po).1 c2Po.bucket c2Po.key "bytes=0-" =
         Except.ok (out, c2Po.body) ∧ out.etag = md5Hex c2Po.body) :=
  by
  have hput : (PutObject c2Sys c2Po).2 = Except.ok (md5Hex c2Po.body) := by decide
  refine ⟨by decide, ?_, hput, ?_⟩
  · intro v hv
    exact nomatch hv
  · exact claim_C2 c2Sys c2Po (md5Hex c2Po.body) (by decide)
      (fun v hv => nomatch hv) hput

end VGw
